import Mathlib

/-!
Verification development for the Tru Designs creative-assistant repository
(`brand_tools.py`, `ui_app.py`).

Python strings are modelled as `List Char` (one element per code point,
matching Python's code-point indexing).  Each definition is a direct
translation of the corresponding Python function; doc comments name the
source symbol.
-/

/-- Python strings, one `Char` per code point. -/
abbrev Chars := List Char

/-- Shorthand turning a Lean string literal into the `List Char` model. -/
def S (s : String) : Chars := s.data

/-- Python whitespace predicate: the set of characters stripped by
`str.strip()` and matched by the regex class `\s` (Unicode whitespace). -/
def pyIsSpace (c : Char) : Bool :=
  c = ' ' || c = '\t' || c = '\n' || c = '\r' || c = '\x0b' || c = '\x0c' ||
  (0x1c ≤ c.toNat && c.toNat ≤ 0x1f) || c.toNat = 0x85 || c.toNat = 0xa0 ||
  c.toNat = 0x1680 || (0x2000 ≤ c.toNat && c.toNat ≤ 0x200a) ||
  c.toNat = 0x2028 || c.toNat = 0x2029 || c.toNat = 0x202f ||
  c.toNat = 0x205f || c.toNat = 0x3000

/-- Python `str.lstrip()`. -/
def pyLstrip (s : Chars) : Chars := s.dropWhile pyIsSpace

/-- Python `str.rstrip()`. -/
def pyRstrip (s : Chars) : Chars := (s.reverse.dropWhile pyIsSpace).reverse

/-- Python `str.strip()`. -/
def pyStrip (s : Chars) : Chars := pyRstrip (pyLstrip s)

/-- Python's substring test `m in s`. -/
def containsSub (m : Chars) : Chars → Bool
  | [] => m.isEmpty
  | c :: t => m.isPrefixOf (c :: t) || containsSub m t

/-- Python's `s.split(m)[0]` for a non-empty separator `m`: the prefix of
`s` before the first occurrence of `m` (all of `s` when `m` does not
occur). -/
def cutAt (m : Chars) : Chars → Chars
  | [] => []
  | c :: t => if m.isPrefixOf (c :: t) then [] else c :: cutAt m t

/-- Python's `s.split(sep)` for a single-character separator. -/
def splitOnChar (sep : Char) : Chars → List Chars
  | [] => [[]]
  | c :: t =>
    if c = sep then [] :: splitOnChar sep t
    else
      match splitOnChar sep t with
      | [] => [[c]]
      | h :: r => (c :: h) :: r

/-! ## Context Builder (`brand_tools._build_context_text`) -/

/-- The intake answers dictionary assembled by the UI submit handler
(`ui_app.py` lines 413–426): every key is present, string fields default
to the empty string. -/
structure IntakeAnswers where
  raw_brief : Chars
  client_name : Chars
  industry : Chars
  target_audience : Chars
  goals : Chars
  brand_vibe : Chars
  voice_tone : Chars
  colors : Chars
  visual_keywords : Chars
  platforms : Chars
  reference_links : Chars
  uploaded_files : List Chars

/-- Python's `answers.get(key) or "N/A"`: the field value when truthy
(non-empty), otherwise the literal `"N/A"`. -/
def orNA (s : Chars) : Chars := if s.isEmpty then S "N/A" else s

/-- The raw-brief branch of `_build_context_text` (`brand_tools.py`
lines 42–58): the f-string returned when `raw_brief.strip()` is truthy. -/
def rawBriefBlock (a : IntakeAnswers) : Chars :=
  S "RAW CLIENT BRIEF (user-typed):\n\n" ++ pyStrip a.raw_brief ++
  S "\n\n------------------------------\nStructured intake fields (if any were filled):\nClient / Brand: " ++ orNA a.client_name ++
  S "\nIndustry / niche: " ++ orNA a.industry ++
  S "\nTarget audience: " ++ orNA a.target_audience ++
  S "\nMain goals: " ++ orNA a.goals ++
  S "\nBrand vibe: " ++ orNA a.brand_vibe ++
  S "\nVoice & tone: " ++ orNA a.voice_tone ++
  S "\nPreferred colors: " ++ orNA a.colors ++
  S "\nVisual keywords / mood: " ++ orNA a.visual_keywords ++
  S "\nMain platforms: " ++ orNA a.platforms ++ S "\n"

/-- The `files_text` accumulation loop of `_build_context_text`
(`brand_tools.py` lines 74–75): one `"- {name}\n"` line per filename. -/
def fileLines : List Chars → Chars
  | [] => []
  | n :: r => S "- " ++ n ++ S "\n" ++ fileLines r

/-- `files_text` of `_build_context_text` (`brand_tools.py` lines 71–75):
empty when no files were uploaded, otherwise a heading plus one line per
filename. -/
def filesText (files : List Chars) : Chars :=
  if files.isEmpty then []
  else S "Uploaded reference files (filenames only, designer will open locally):\n" ++ fileLines files

/-- The structured branch of `_build_context_text` (`brand_tools.py`
lines 62–103): the headed f-string built from the individual fields,
returned via `context.strip()`. -/
def structuredBlock (a : IntakeAnswers) : Chars :=
  let refs_text := pyStrip a.reference_links
  let files_text := filesText a.uploaded_files
  pyStrip
    (S "\nClient / Brand:\n- Name: " ++ orNA a.client_name ++
     S "\n- Industry / niche: " ++ orNA a.industry ++
     S "\n\nAudience & Goals:\n- Target audience: " ++ orNA a.target_audience ++
     S "\n- Main business / brand goals: " ++ orNA a.goals ++
     S "\n\nBrand Vibe & Personality:\n- Current / desired vibe: " ++ orNA a.brand_vibe ++
     S "\n- Voice & tone notes: " ++ orNA a.voice_tone ++
     S "\n\nVisual Direction:\n- Preferred colors or themes: " ++ orNA a.colors ++
     S "\n- Visual keywords / mood: " ++ orNA a.visual_keywords ++
     S "\n\nPlatforms:\n- Main platforms: " ++ orNA a.platforms ++
     S "\n\nReferences:\n- Reference links (Insta, Pinterest, sites):\n" ++
     (if refs_text.isEmpty then S "None provided." else refs_text) ++
     S "\n\n" ++ files_text ++ S "\n")

/-- `brand_tools._build_context_text`: the raw-brief branch when
`raw_brief.strip()` is truthy, otherwise the structured branch. -/
def build_context_text (a : IntakeAnswers) : Chars :=
  if (pyStrip a.raw_brief).isEmpty then structuredBlock a else rawBriefBlock a

/-- All-blank intake answers, used below as a base point for examples. -/
def blankAnswers : IntakeAnswers :=
  ⟨[], [], [], [], [], [], [], [], [], [], [], []⟩

example : (pyStrip (S "  hi there\n")) = S "hi there" := by decide

example :
    containsSub (S "- Name: N/A") (build_context_text blankAnswers) = true := by
  decide

/-! ## Lemmas about the string utilities -/

theorem containsSub_eq_true_iff {m s : Chars} : containsSub m s = true ↔ m <:+: s := by
  induction s with
  | nil =>
    simp [containsSub, List.isEmpty_iff, List.infix_nil]
  | cons c t ih =>
    simp [containsSub, Bool.or_eq_true, List.isPrefixOf_iff_prefix, ih,
      List.infix_cons_iff]

theorem containsSub_of_isInf {m s : Chars} (h : m <:+: s) : containsSub m s = true :=
  containsSub_eq_true_iff.2 h

theorem containsSub_mono {m t s : Chars} (hts : t <:+: s)
    (h : containsSub m t = true) : containsSub m s = true :=
  containsSub_of_isInf ((containsSub_eq_true_iff.1 h).trans hts)

theorem isInf_self_append (m z : Chars) : m <:+: m ++ z :=
  (List.prefix_append m z).isInfix

theorem isInf_append_left {m p : Chars} (q : Chars) (h : m <:+: p) : m <:+: p ++ q := by
  obtain ⟨x, y, rfl⟩ := h
  exact ⟨x, y ++ q, by simp⟩

theorem isInf_skip (a : Chars) {m y : Chars} (h : m <:+: y) : m <:+: a ++ y := by
  obtain ⟨x, z, rfl⟩ := h
  exact ⟨a ++ x, z, by simp⟩

/-- A marker that straddles the boundary between a literal segment `L` and
an interpolated value `v`: if `L = Lpre ++ Lsuf` and `m = Lsuf ++ v` then
`m` occurs in `L ++ (v ++ rest)`. -/
theorem isInf_span {L m : Chars} (Lpre Lsuf v rest : Chars)
    (hL : L = Lpre ++ Lsuf) (hm : m = Lsuf ++ v) : m <:+: L ++ (v ++ rest) :=
  ⟨Lpre, rest, by rw [hL, hm]; simp [List.append_assoc]⟩

theorem cutAt_pref (m s : Chars) : cutAt m s <+: s := by
  induction s with
  | nil => simp [cutAt]
  | cons c t ih =>
    rw [cutAt]
    split
    · exact List.nil_prefix
    · exact (List.cons_prefix_cons).2 ⟨rfl, ih⟩

theorem cutAt_of_not_contains {m s : Chars} (h : containsSub m s = false) :
    cutAt m s = s := by
  induction s with
  | nil => rfl
  | cons c t ih =>
    rw [containsSub, Bool.or_eq_false_iff] at h
    rw [cutAt, if_neg (by simp [h.1]), ih h.2]

theorem cutAt_decomp {m s : Chars} (h : containsSub m s = true) :
    ∃ q, s = cutAt m s ++ m ++ q := by
  induction s with
  | nil =>
    rw [containsSub, List.isEmpty_iff] at h
    exact ⟨[], by simp [cutAt, h]⟩
  | cons c t ih =>
    rw [containsSub, Bool.or_eq_true] at h
    by_cases hp : m.isPrefixOf (c :: t) = true
    · obtain ⟨q, hq⟩ := (List.isPrefixOf_iff_prefix.1 hp)
      exact ⟨q, by simp [cutAt, hp, ← hq]⟩
    · obtain ⟨q, hq⟩ := ih (h.resolve_left hp)
      exact ⟨q, by rw [cutAt, if_neg hp]; simpa using congrArg (c :: ·) hq⟩

theorem pyRstrip_pref (s : Chars) : pyRstrip s <+: s := by
  have h : s.reverse.dropWhile pyIsSpace <:+ s.reverse :=
    List.dropWhile_suffix pyIsSpace
  have h2 := List.reverse_prefix.2 h
  simpa using h2

theorem pyLstrip_suff (s : Chars) : pyLstrip s <:+ s :=
  List.dropWhile_suffix pyIsSpace

/-- An occurrence of a marker whose last character is not whitespace
survives `rstrip`. -/
theorem isInf_pyRstrip {m s : Chars} {c : Char} (h : m <:+: s)
    (hlast : m.getLast? = some c) (hc : pyIsSpace c = false) :
    m <:+: pyRstrip s := by
  obtain ⟨p, q, rfl⟩ := h
  have hrev : m.reverse.head? = some c := by rw [List.head?_reverse]; exact hlast
  obtain ⟨mr, hmr⟩ : ∃ mr, m.reverse = c :: mr := by
    cases hm : m.reverse with
    | nil => rw [hm] at hrev; simp at hrev
    | cons x xs =>
      rw [hm] at hrev
      simp at hrev
      exact ⟨xs, by rw [hrev]⟩
  have hd : List.dropWhile pyIsSpace (m.reverse ++ p.reverse) = m.reverse ++ p.reverse := by
    rw [hmr, List.cons_append, List.dropWhile_cons, hc]
    simp
  unfold pyRstrip
  rw [List.reverse_append, List.reverse_append, List.dropWhile_append]
  split
  · rw [hd, List.reverse_append]
    simp only [List.reverse_reverse]
    exact ⟨p, [], by simp⟩
  · refine ⟨p, (List.dropWhile pyIsSpace q.reverse).reverse, ?_⟩
    simp [List.reverse_append]

/-- An occurrence of a marker whose first character is not whitespace
survives `lstrip`. -/
theorem isInf_pyLstrip {m s : Chars} {c : Char} (h : m <:+: s)
    (hhead : m.head? = some c) (hc : pyIsSpace c = false) :
    m <:+: pyLstrip s := by
  obtain ⟨p, q, rfl⟩ := h
  obtain ⟨mt, hmt⟩ : ∃ mt, m = c :: mt := by
    cases hm : m with
    | nil => rw [hm] at hhead; simp at hhead
    | cons x xs =>
      rw [hm] at hhead
      simp at hhead
      exact ⟨xs, by rw [hhead]⟩
  have hd : List.dropWhile pyIsSpace (m ++ q) = m ++ q := by
    rw [hmt, List.cons_append, List.dropWhile_cons, hc]
    simp
  unfold pyLstrip
  rw [List.append_assoc, List.dropWhile_append]
  split
  · rw [hd]
    exact isInf_self_append m q
  · exact ⟨List.dropWhile pyIsSpace p, q, by simp⟩

/-- An occurrence of a marker with non-whitespace first and last
characters survives `strip`. -/
theorem isInf_pyStrip {m s : Chars} {c d : Char} (h : m <:+: s)
    (hhead : m.head? = some c) (hc : pyIsSpace c = false)
    (hlast : m.getLast? = some d) (hd : pyIsSpace d = false) :
    m <:+: pyStrip s :=
  isInf_pyRstrip (isInf_pyLstrip h hhead hc) hlast hd

/-- `orNA` on the empty string yields the `"N/A"` sentinel. -/
theorem orNA_nil : orNA [] = S "N/A" := rfl

/-! ## Sentinel rendering helper lemmas -/

theorem structNA_name {a : IntakeAnswers} (h : a.client_name = []) :
    containsSub (S "- Name: N/A") (structuredBlock a) = true := by
  apply containsSub_of_isInf
  refine isInf_pyStrip (c := '-') (d := 'A') ?_ (by decide) (by decide) (by decide) (by decide)
  simp only [structuredBlock, h, orNA_nil, List.append_assoc]
  exact isInf_span (S "\nClient / Brand:\n") (S "- Name: ") (S "N/A") _ (by decide) (by decide)

theorem structNA_industry {a : IntakeAnswers} (h : a.industry = []) :
    containsSub (S "- Industry / niche: N/A") (structuredBlock a) = true := by
  apply containsSub_of_isInf
  refine isInf_pyStrip (c := '-') (d := 'A') ?_ (by decide) (by decide) (by decide) (by decide)
  simp only [structuredBlock, h, orNA_nil, List.append_assoc]
  exact isInf_skip _ <| isInf_skip _ <|
    isInf_span (S "\n") (S "- Industry / niche: ") (S "N/A") _ (by decide) (by decide)

theorem structNA_target {a : IntakeAnswers} (h : a.target_audience = []) :
    containsSub (S "- Target audience: N/A") (structuredBlock a) = true := by
  apply containsSub_of_isInf
  refine isInf_pyStrip (c := '-') (d := 'A') ?_ (by decide) (by decide) (by decide) (by decide)
  simp only [structuredBlock, h, orNA_nil, List.append_assoc]
  exact isInf_skip _ <| isInf_skip _ <| isInf_skip _ <| isInf_skip _ <|
    isInf_span (S "\n\nAudience & Goals:\n") (S "- Target audience: ") (S "N/A") _
      (by decide) (by decide)

theorem structNA_goals {a : IntakeAnswers} (h : a.goals = []) :
    containsSub (S "- Main business / brand goals: N/A") (structuredBlock a) = true := by
  apply containsSub_of_isInf
  refine isInf_pyStrip (c := '-') (d := 'A') ?_ (by decide) (by decide) (by decide) (by decide)
  simp only [structuredBlock, h, orNA_nil, List.append_assoc]
  exact isInf_skip _ <| isInf_skip _ <| isInf_skip _ <| isInf_skip _ <|
    isInf_skip _ <| isInf_skip _ <|
    isInf_span (S "\n") (S "- Main business / brand goals: ") (S "N/A") _
      (by decide) (by decide)

theorem structNA_vibe {a : IntakeAnswers} (h : a.brand_vibe = []) :
    containsSub (S "- Current / desired vibe: N/A") (structuredBlock a) = true := by
  apply containsSub_of_isInf
  refine isInf_pyStrip (c := '-') (d := 'A') ?_ (by decide) (by decide) (by decide) (by decide)
  simp only [structuredBlock, h, orNA_nil, List.append_assoc]
  exact isInf_skip _ <| isInf_skip _ <| isInf_skip _ <| isInf_skip _ <|
    isInf_skip _ <| isInf_skip _ <| isInf_skip _ <| isInf_skip _ <|
    isInf_span (S "\n\nBrand Vibe & Personality:\n") (S "- Current / desired vibe: ") (S "N/A") _
      (by decide) (by decide)

theorem structNA_voice {a : IntakeAnswers} (h : a.voice_tone = []) :
    containsSub (S "- Voice & tone notes: N/A") (structuredBlock a) = true := by
  apply containsSub_of_isInf
  refine isInf_pyStrip (c := '-') (d := 'A') ?_ (by decide) (by decide) (by decide) (by decide)
  simp only [structuredBlock, h, orNA_nil, List.append_assoc]
  exact isInf_skip _ <| isInf_skip _ <| isInf_skip _ <| isInf_skip _ <|
    isInf_skip _ <| isInf_skip _ <| isInf_skip _ <| isInf_skip _ <|
    isInf_skip _ <| isInf_skip _ <|
    isInf_span (S "\n") (S "- Voice & tone notes: ") (S "N/A") _ (by decide) (by decide)

theorem structNA_colors {a : IntakeAnswers} (h : a.colors = []) :
    containsSub (S "- Preferred colors or themes: N/A") (structuredBlock a) = true := by
  apply containsSub_of_isInf
  refine isInf_pyStrip (c := '-') (d := 'A') ?_ (by decide) (by decide) (by decide) (by decide)
  simp only [structuredBlock, h, orNA_nil, List.append_assoc]
  exact isInf_skip _ <| isInf_skip _ <| isInf_skip _ <| isInf_skip _ <|
    isInf_skip _ <| isInf_skip _ <| isInf_skip _ <| isInf_skip _ <|
    isInf_skip _ <| isInf_skip _ <| isInf_skip _ <| isInf_skip _ <|
    isInf_span (S "\n\nVisual Direction:\n") (S "- Preferred colors or themes: ") (S "N/A") _
      (by decide) (by decide)

theorem structNA_visual {a : IntakeAnswers} (h : a.visual_keywords = []) :
    containsSub (S "- Visual keywords / mood: N/A") (structuredBlock a) = true := by
  apply containsSub_of_isInf
  refine isInf_pyStrip (c := '-') (d := 'A') ?_ (by decide) (by decide) (by decide) (by decide)
  simp only [structuredBlock, h, orNA_nil, List.append_assoc]
  exact isInf_skip _ <| isInf_skip _ <| isInf_skip _ <| isInf_skip _ <|
    isInf_skip _ <| isInf_skip _ <| isInf_skip _ <| isInf_skip _ <|
    isInf_skip _ <| isInf_skip _ <| isInf_skip _ <| isInf_skip _ <|
    isInf_skip _ <| isInf_skip _ <|
    isInf_span (S "\n") (S "- Visual keywords / mood: ") (S "N/A") _ (by decide) (by decide)

theorem structNA_platforms {a : IntakeAnswers} (h : a.platforms = []) :
    containsSub (S "- Main platforms: N/A") (structuredBlock a) = true := by
  apply containsSub_of_isInf
  refine isInf_pyStrip (c := '-') (d := 'A') ?_ (by decide) (by decide) (by decide) (by decide)
  simp only [structuredBlock, h, orNA_nil, List.append_assoc]
  exact isInf_skip _ <| isInf_skip _ <| isInf_skip _ <| isInf_skip _ <|
    isInf_skip _ <| isInf_skip _ <| isInf_skip _ <| isInf_skip _ <|
    isInf_skip _ <| isInf_skip _ <| isInf_skip _ <| isInf_skip _ <|
    isInf_skip _ <| isInf_skip _ <| isInf_skip _ <| isInf_skip _ <|
    isInf_span (S "\n\nPlatforms:\n") (S "- Main platforms: ") (S "N/A") _ (by decide) (by decide)

theorem structRefs_none {a : IntakeAnswers} (h : pyStrip a.reference_links = []) :
    containsSub (S "None provided.") (structuredBlock a) = true := by
  apply containsSub_of_isInf
  refine isInf_pyStrip (c := 'N') (d := '.') ?_ (by decide) (by decide) (by decide) (by decide)
  simp only [structuredBlock, h, List.isEmpty_nil, if_true, List.append_assoc]
  exact isInf_skip _ <| isInf_skip _ <| isInf_skip _ <| isInf_skip _ <|
    isInf_skip _ <| isInf_skip _ <| isInf_skip _ <| isInf_skip _ <|
    isInf_skip _ <| isInf_skip _ <| isInf_skip _ <| isInf_skip _ <|
    isInf_skip _ <| isInf_skip _ <| isInf_skip _ <| isInf_skip _ <|
    isInf_skip _ <| isInf_skip _ <|
    isInf_span (S "\n\nReferences:\n- Reference links (Insta, Pinterest, sites):\n") []
      (S "None provided.") _ (by decide) (by decide)

theorem structFiles_heading {a : IntakeAnswers} (h : a.uploaded_files ≠ []) :
    containsSub
      (S "Uploaded reference files (filenames only, designer will open locally):")
      (structuredBlock a) = true := by
  apply containsSub_of_isInf
  refine isInf_pyStrip (c := 'U') (d := ':') ?_ (by decide) (by decide) (by decide) (by decide)
  have hf : filesText a.uploaded_files =
      S "Uploaded reference files (filenames only, designer will open locally):\n" ++
      fileLines a.uploaded_files := by
    simp [filesText, List.isEmpty_iff, h]
  simp only [structuredBlock, hf, List.append_assoc]
  refine isInf_skip _ <| isInf_skip _ <| isInf_skip _ <| isInf_skip _ <|
    isInf_skip _ <| isInf_skip _ <| isInf_skip _ <| isInf_skip _ <|
    isInf_skip _ <| isInf_skip _ <| isInf_skip _ <| isInf_skip _ <|
    isInf_skip _ <| isInf_skip _ <| isInf_skip _ <| isInf_skip _ <|
    isInf_skip _ <| isInf_skip _ <| isInf_skip _ <| isInf_skip _ <|
    isInf_skip _ <| isInf_append_left _ ?_
  exact List.IsPrefix.isInfix ⟨S "\n", by decide⟩

/-- Each uploaded filename occurs as a `"- name"` line in `fileLines`. -/
theorem fileLine_isInf {nm : Chars} {files : List Chars} (h : nm ∈ files) :
    (S "- " ++ nm) <:+: fileLines files := by
  induction files with
  | nil => cases h
  | cons f r ih =>
    rcases List.mem_cons.1 h with rfl | hr
    · rw [fileLines]
      simp only [List.append_assoc]
      exact ⟨[], S "\n" ++ fileLines r, by simp⟩
    · rw [fileLines]
      simp only [List.append_assoc]
      exact isInf_skip _ <| isInf_skip _ <| isInf_skip _ (ih hr)

theorem structFiles_line {a : IntakeAnswers} {nm : Chars} {d : Char}
    (h : nm ∈ a.uploaded_files) (hd : nm.getLast? = some d)
    (hws : pyIsSpace d = false) :
    containsSub (S "- " ++ nm) (structuredBlock a) = true := by
  apply containsSub_of_isInf
  have hne : a.uploaded_files ≠ [] := by
    intro hnil; rw [hnil] at h; cases h
  have hnm : nm ≠ [] := by
    intro hnil; rw [hnil] at hd; cases hd
  have hlast : (S "- " ++ nm).getLast? = some d := by
    rw [List.getLast?_append_of_ne_nil _ hnm]
    exact hd
  have hhead : (S "- " ++ nm).head? = some '-' := rfl
  refine isInf_pyStrip (c := '-') (d := d) ?_ hhead (by decide) hlast hws
  have hf : filesText a.uploaded_files =
      S "Uploaded reference files (filenames only, designer will open locally):\n" ++
      fileLines a.uploaded_files := by
    simp [filesText, List.isEmpty_iff, hne]
  simp only [structuredBlock, hf, List.append_assoc]
  refine isInf_skip _ <| isInf_skip _ <| isInf_skip _ <| isInf_skip _ <|
    isInf_skip _ <| isInf_skip _ <| isInf_skip _ <| isInf_skip _ <|
    isInf_skip _ <| isInf_skip _ <| isInf_skip _ <| isInf_skip _ <|
    isInf_skip _ <| isInf_skip _ <| isInf_skip _ <| isInf_skip _ <|
    isInf_skip _ <| isInf_skip _ <| isInf_skip _ <| isInf_skip _ <|
    isInf_skip _ <| isInf_skip _ <| isInf_append_left _ ?_
  exact fileLine_isInf h

theorem rawNA_client {a : IntakeAnswers} (h : a.client_name = []) :
    containsSub (S "Client / Brand: N/A") (rawBriefBlock a) = true := by
  apply containsSub_of_isInf
  simp only [rawBriefBlock, h, orNA_nil, List.append_assoc]
  exact isInf_skip _ <| isInf_skip _ <|
    isInf_span
      (S "\n\n------------------------------\nStructured intake fields (if any were filled):\n")
      (S "Client / Brand: ") (S "N/A") _ (by decide) (by decide)

theorem rawNA_industry {a : IntakeAnswers} (h : a.industry = []) :
    containsSub (S "Industry / niche: N/A") (rawBriefBlock a) = true := by
  apply containsSub_of_isInf
  simp only [rawBriefBlock, h, orNA_nil, List.append_assoc]
  exact isInf_skip _ <| isInf_skip _ <| isInf_skip _ <| isInf_skip _ <|
    isInf_span (S "\n") (S "Industry / niche: ") (S "N/A") _ (by decide) (by decide)

theorem rawNA_target {a : IntakeAnswers} (h : a.target_audience = []) :
    containsSub (S "Target audience: N/A") (rawBriefBlock a) = true := by
  apply containsSub_of_isInf
  simp only [rawBriefBlock, h, orNA_nil, List.append_assoc]
  exact isInf_skip _ <| isInf_skip _ <| isInf_skip _ <| isInf_skip _ <|
    isInf_skip _ <| isInf_skip _ <|
    isInf_span (S "\n") (S "Target audience: ") (S "N/A") _ (by decide) (by decide)

theorem rawNA_goals {a : IntakeAnswers} (h : a.goals = []) :
    containsSub (S "Main goals: N/A") (rawBriefBlock a) = true := by
  apply containsSub_of_isInf
  simp only [rawBriefBlock, h, orNA_nil, List.append_assoc]
  exact isInf_skip _ <| isInf_skip _ <| isInf_skip _ <| isInf_skip _ <|
    isInf_skip _ <| isInf_skip _ <| isInf_skip _ <| isInf_skip _ <|
    isInf_span (S "\n") (S "Main goals: ") (S "N/A") _ (by decide) (by decide)

theorem rawNA_vibe {a : IntakeAnswers} (h : a.brand_vibe = []) :
    containsSub (S "Brand vibe: N/A") (rawBriefBlock a) = true := by
  apply containsSub_of_isInf
  simp only [rawBriefBlock, h, orNA_nil, List.append_assoc]
  exact isInf_skip _ <| isInf_skip _ <| isInf_skip _ <| isInf_skip _ <|
    isInf_skip _ <| isInf_skip _ <| isInf_skip _ <| isInf_skip _ <|
    isInf_skip _ <| isInf_skip _ <|
    isInf_span (S "\n") (S "Brand vibe: ") (S "N/A") _ (by decide) (by decide)

theorem rawNA_voice {a : IntakeAnswers} (h : a.voice_tone = []) :
    containsSub (S "Voice & tone: N/A") (rawBriefBlock a) = true := by
  apply containsSub_of_isInf
  simp only [rawBriefBlock, h, orNA_nil, List.append_assoc]
  exact isInf_skip _ <| isInf_skip _ <| isInf_skip _ <| isInf_skip _ <|
    isInf_skip _ <| isInf_skip _ <| isInf_skip _ <| isInf_skip _ <|
    isInf_skip _ <| isInf_skip _ <| isInf_skip _ <| isInf_skip _ <|
    isInf_span (S "\n") (S "Voice & tone: ") (S "N/A") _ (by decide) (by decide)

theorem rawNA_colors {a : IntakeAnswers} (h : a.colors = []) :
    containsSub (S "Preferred colors: N/A") (rawBriefBlock a) = true := by
  apply containsSub_of_isInf
  simp only [rawBriefBlock, h, orNA_nil, List.append_assoc]
  exact isInf_skip _ <| isInf_skip _ <| isInf_skip _ <| isInf_skip _ <|
    isInf_skip _ <| isInf_skip _ <| isInf_skip _ <| isInf_skip _ <|
    isInf_skip _ <| isInf_skip _ <| isInf_skip _ <| isInf_skip _ <|
    isInf_skip _ <| isInf_skip _ <|
    isInf_span (S "\n") (S "Preferred colors: ") (S "N/A") _ (by decide) (by decide)

theorem rawNA_visual {a : IntakeAnswers} (h : a.visual_keywords = []) :
    containsSub (S "Visual keywords / mood: N/A") (rawBriefBlock a) = true := by
  apply containsSub_of_isInf
  simp only [rawBriefBlock, h, orNA_nil, List.append_assoc]
  exact isInf_skip _ <| isInf_skip _ <| isInf_skip _ <| isInf_skip _ <|
    isInf_skip _ <| isInf_skip _ <| isInf_skip _ <| isInf_skip _ <|
    isInf_skip _ <| isInf_skip _ <| isInf_skip _ <| isInf_skip _ <|
    isInf_skip _ <| isInf_skip _ <| isInf_skip _ <| isInf_skip _ <|
    isInf_span (S "\n") (S "Visual keywords / mood: ") (S "N/A") _ (by decide) (by decide)

theorem pref_append_mid (x y z : Chars) : x ++ y <+: x ++ (y ++ z) := by
  rw [← List.append_assoc]
  exact List.prefix_append _ _

theorem rawNA_platforms {a : IntakeAnswers} (h : a.platforms = []) :
    containsSub (S "Main platforms: N/A") (rawBriefBlock a) = true := by
  apply containsSub_of_isInf
  simp only [rawBriefBlock, h, orNA_nil, List.append_assoc]
  exact isInf_skip _ <| isInf_skip _ <| isInf_skip _ <| isInf_skip _ <|
    isInf_skip _ <| isInf_skip _ <| isInf_skip _ <| isInf_skip _ <|
    isInf_skip _ <| isInf_skip _ <| isInf_skip _ <| isInf_skip _ <|
    isInf_skip _ <| isInf_skip _ <| isInf_skip _ <| isInf_skip _ <|
    isInf_skip _ <| isInf_skip _ <|
    isInf_span (S "\n") (S "Main platforms: ") (S "N/A") _ (by decide) (by decide)

/-! ## Claim C3 -/

def c3answers : IntakeAnswers :=
  ⟨S "  Launch brief for SpotaSwag  ", [], [], [], [], [], [], [], [], [], [], []⟩

/-- C3: for every IntakeAnswers whose raw_brief is non-blank after
trimming, the Context Builder output starts with the fixed raw-brief
header followed immediately by the trimmed raw brief verbatim, and the
supplementary structured-field listing follows later in the text. -/
theorem C3_rawBrief_verbatim_lead (a : IntakeAnswers)
    (h : (pyStrip a.raw_brief).isEmpty = false) :
    (S "RAW CLIENT BRIEF (user-typed):\n\n" ++ pyStrip a.raw_brief).isPrefixOf
      (build_context_text a) = true ∧
    containsSub
      (S "------------------------------\nStructured intake fields (if any were filled):")
      (build_context_text a) = true := by
  have hb : build_context_text a = rawBriefBlock a := by
    simp [build_context_text, h]
  constructor
  · rw [hb, List.isPrefixOf_iff_prefix]
    simp only [rawBriefBlock, List.append_assoc]
    exact pref_append_mid _ _ _
  · rw [hb]
    apply containsSub_of_isInf
    simp only [rawBriefBlock, List.append_assoc]
    refine isInf_skip _ <| isInf_skip _ <| isInf_append_left _ ?_
    decide

/-- Witness for C3 at a concrete input. -/
theorem C3_rawBrief_verbatim_lead_witness :
    (S "RAW CLIENT BRIEF (user-typed):\n\n" ++ pyStrip c3answers.raw_brief).isPrefixOf
      (build_context_text c3answers) = true ∧
    containsSub
      (S "------------------------------\nStructured intake fields (if any were filled):")
      (build_context_text c3answers) = true :=
  C3_rawBrief_verbatim_lead c3answers (by decide)

/-! ## Claim C9 -/

def c9cex : IntakeAnswers :=
  ⟨[], S " ", [], [], [], [], [], [], [], [], [], []⟩

set_option maxRecDepth 4000 in
/-- C9 counterexample: with a blank raw brief and a whitespace-only (blank
but truthy) client name, the structured branch renders the whitespace
verbatim, not the "N/A" placeholder, because the code tests Python
falsiness (`answers.get(...) or "N/A"`), not blankness. -/
theorem C9_blank_whitespace_cex :
    (pyStrip c9cex.raw_brief).isEmpty = true ∧
    pyStrip c9cex.client_name = [] ∧
    c9cex.client_name ≠ [] ∧
    containsSub (S "- Name: N/A") (build_context_text c9cex) = false := by
  refine ⟨by decide, by decide, by decide, by decide⟩

/-- C9 (amended): in the structured branch, every structured field that is
the empty string renders as the literal "N/A" (reference links render as
"None provided." when blank after stripping), and uploaded filenames are
listed under the dedicated heading when any were provided. -/
theorem C9_structured_sentinels (a : IntakeAnswers)
    (hb : (pyStrip a.raw_brief).isEmpty = true) :
    (a.client_name = [] →
      containsSub (S "- Name: N/A") (build_context_text a) = true) ∧
    (a.industry = [] →
      containsSub (S "- Industry / niche: N/A") (build_context_text a) = true) ∧
    (a.target_audience = [] →
      containsSub (S "- Target audience: N/A") (build_context_text a) = true) ∧
    (a.goals = [] →
      containsSub (S "- Main business / brand goals: N/A") (build_context_text a) = true) ∧
    (a.brand_vibe = [] →
      containsSub (S "- Current / desired vibe: N/A") (build_context_text a) = true) ∧
    (a.voice_tone = [] →
      containsSub (S "- Voice & tone notes: N/A") (build_context_text a) = true) ∧
    (a.colors = [] →
      containsSub (S "- Preferred colors or themes: N/A") (build_context_text a) = true) ∧
    (a.visual_keywords = [] →
      containsSub (S "- Visual keywords / mood: N/A") (build_context_text a) = true) ∧
    (a.platforms = [] →
      containsSub (S "- Main platforms: N/A") (build_context_text a) = true) ∧
    (pyStrip a.reference_links = [] →
      containsSub (S "None provided.") (build_context_text a) = true) ∧
    (a.uploaded_files ≠ [] →
      containsSub
        (S "Uploaded reference files (filenames only, designer will open locally):")
        (build_context_text a) = true) ∧
    (∀ nm ∈ a.uploaded_files, ∀ d : Char, nm.getLast? = some d →
      pyIsSpace d = false →
      containsSub (S "- " ++ nm) (build_context_text a) = true) := by
  have hp : build_context_text a = structuredBlock a := by
    simp [build_context_text, hb]
  rw [hp]
  exact ⟨fun h => structNA_name h, fun h => structNA_industry h,
    fun h => structNA_target h, fun h => structNA_goals h,
    fun h => structNA_vibe h, fun h => structNA_voice h,
    fun h => structNA_colors h, fun h => structNA_visual h,
    fun h => structNA_platforms h, fun h => structRefs_none h,
    fun h => structFiles_heading h,
    fun nm hnm d hd hws => structFiles_line hnm hd hws⟩

def c9w : IntakeAnswers :=
  ⟨[], [], [], [], [], [], [], [], [], [], [], [S "logo.png"]⟩

/-- Witness for C9 at a concrete input. -/
theorem C9_structured_sentinels_witness :
    containsSub (S "- Name: N/A") (build_context_text c9w) = true ∧
    containsSub (S "None provided.") (build_context_text c9w) = true ∧
    containsSub
      (S "Uploaded reference files (filenames only, designer will open locally):")
      (build_context_text c9w) = true ∧
    containsSub (S "- " ++ S "logo.png") (build_context_text c9w) = true := by
  have H := C9_structured_sentinels c9w (by decide)
  exact ⟨H.1 rfl, H.2.2.2.2.2.2.2.2.2.1 (by decide),
    H.2.2.2.2.2.2.2.2.2.2.1 (by decide),
    H.2.2.2.2.2.2.2.2.2.2.2 (S "logo.png") (by decide) 'g' (by decide) (by decide)⟩

/-! ## Claim C2 -/

def c2cex : IntakeAnswers :=
  ⟨S "Launch a merch brand", [], [], [], [], [], [], [], [], [], [], []⟩

set_option maxRecDepth 4000 in
/-- C2 counterexample: in the raw-brief branch the blank reference_links
field is not rendered at all — neither a "None provided" sentinel nor any
"Reference links" line appears, refuting "no field is omitted ... holds
for both branches". -/
theorem C2_raw_branch_omission_cex :
    (pyStrip c2cex.raw_brief).isEmpty = false ∧
    c2cex.reference_links = [] ∧
    containsSub (S "None provided") (build_context_text c2cex) = false ∧
    containsSub (S "Reference links") (build_context_text c2cex) = false := by
  refine ⟨by decide, by decide, by decide, by decide⟩

/-- C2 (amended): in the raw-brief branch, each of the nine structured
text fields renders as "N/A" when it is the empty string, but the
reference_links and uploaded_files fields are omitted: the composed
context text does not depend on them.  (Sentinel rendering for reference
links exists only in the structured branch.) -/
theorem C2_raw_branch_sentinels (a : IntakeAnswers)
    (h : (pyStrip a.raw_brief).isEmpty = false) :
    (a.client_name = [] →
      containsSub (S "Client / Brand: N/A") (build_context_text a) = true) ∧
    (a.industry = [] →
      containsSub (S "Industry / niche: N/A") (build_context_text a) = true) ∧
    (a.target_audience = [] →
      containsSub (S "Target audience: N/A") (build_context_text a) = true) ∧
    (a.goals = [] →
      containsSub (S "Main goals: N/A") (build_context_text a) = true) ∧
    (a.brand_vibe = [] →
      containsSub (S "Brand vibe: N/A") (build_context_text a) = true) ∧
    (a.voice_tone = [] →
      containsSub (S "Voice & tone: N/A") (build_context_text a) = true) ∧
    (a.colors = [] →
      containsSub (S "Preferred colors: N/A") (build_context_text a) = true) ∧
    (a.visual_keywords = [] →
      containsSub (S "Visual keywords / mood: N/A") (build_context_text a) = true) ∧
    (a.platforms = [] →
      containsSub (S "Main platforms: N/A") (build_context_text a) = true) ∧
    (∀ refs files,
      build_context_text { a with reference_links := refs, uploaded_files := files } =
        build_context_text a) := by
  have hp : build_context_text a = rawBriefBlock a := by
    simp [build_context_text, h]
  rw [hp]
  refine ⟨fun hf => rawNA_client hf, fun hf => rawNA_industry hf,
    fun hf => rawNA_target hf, fun hf => rawNA_goals hf,
    fun hf => rawNA_vibe hf, fun hf => rawNA_voice hf,
    fun hf => rawNA_colors hf, fun hf => rawNA_visual hf,
    fun hf => rawNA_platforms hf, fun refs files => ?_⟩
  show build_context_text _ = rawBriefBlock a
  simp [build_context_text, h]
  rfl

def c2w : IntakeAnswers :=
  ⟨S "A brief", [], [], [], [], [], [], [], [], [], S "http://x", [S "a.png"]⟩

/-- Witness for C2 at a concrete input. -/
theorem C2_raw_branch_sentinels_witness :
    containsSub (S "Client / Brand: N/A") (build_context_text c2w) = true ∧
    containsSub (S "Main platforms: N/A") (build_context_text c2w) = true ∧
    build_context_text { c2w with reference_links := [], uploaded_files := [] } =
      build_context_text c2w := by
  have H := C2_raw_branch_sentinels c2w (by decide)
  exact ⟨H.1 rfl, H.2.2.2.2.2.2.2.2.1 rfl, H.2.2.2.2.2.2.2.2.2 [] []⟩

/-! ## JSON model (`json.loads`)

A shallow model of Python `json.loads` as used by `parse_brief_to_fields`
and the calendar renderer.  Numeric literals are stored verbatim (the
claims never inspect numeric values).  Objects are association lists built
with Python-dict insertion semantics (later duplicate keys overwrite in
place).  Model restrictions: a lone \uXXXX surrogate escape is rejected
(such code points are unrepresentable as Lean scalar values), while
surrogate pairs are combined as Python does. -/

inductive Json where
  | null : Json
  | bool (b : Bool) : Json
  | num (lit : Chars) : Json
  | str (s : Chars) : Json
  | arr (items : List Json) : Json
  | obj (fields : List (Chars × Json)) : Json

/-- JSON whitespace (the characters `json.loads` skips between tokens). -/
def jsonWs (c : Char) : Bool := c = ' ' || c = '\t' || c = '\n' || c = '\r'

/-- Python-dict insertion: update in place if the key exists, append
otherwise. -/
def objUpsert (k : Chars) (v : Json) : List (Chars × Json) → List (Chars × Json)
  | [] => [(k, v)]
  | (k', v') :: r => if k = k' then (k, v) :: r else (k', v') :: objUpsert k v r

/-- Tail-recursive list length (keeps fuel evaluation iterative). -/
def lenAcc (n : Nat) : List Char → Nat
  | [] => n
  | _ :: t => lenAcc (n + 1) t

def hexVal (c : Char) : Option Nat :=
  if '0' ≤ c ∧ c ≤ '9' then some (c.toNat - 48)
  else if 'a' ≤ c ∧ c ≤ 'f' then some (c.toNat - 87)
  else if 'A' ≤ c ∧ c ≤ 'F' then some (c.toNat - 55)
  else none

/-- Four hexadecimal digits (for `\u` escapes). -/
def parseHex4 : Chars → Option (Nat × Chars)
  | a :: b :: c :: d :: r =>
    match hexVal a, hexVal b, hexVal c, hexVal d with
    | some x, some y, some z, some w => some (((x * 16 + y) * 16 + z) * 16 + w, r)
    | _, _, _, _ => none
  | _ => none

/-- JSON string body parser (after the opening quote); returns the decoded
content and the remainder after the closing quote.  The fuel argument
receives the surrounding parser fuel (always at least the remaining input
length at the top-level call). -/
def parseJStr : Nat → Chars → Option (Chars × Chars)
  | 0, _ => none
  | _ + 1, [] => none
  | fuel + 1, c :: r =>
    if c = '"' then some ([], r)
    else if c = '\\' then
      match r with
      | [] => none
      | e :: r2 =>
        if e = '"' then (parseJStr fuel r2).map (fun p => ('"' :: p.1, p.2))
        else if e = '\\' then (parseJStr fuel r2).map (fun p => ('\\' :: p.1, p.2))
        else if e = '/' then (parseJStr fuel r2).map (fun p => ('/' :: p.1, p.2))
        else if e = 'b' then (parseJStr fuel r2).map (fun p => ('\x08' :: p.1, p.2))
        else if e = 'f' then (parseJStr fuel r2).map (fun p => ('\x0c' :: p.1, p.2))
        else if e = 'n' then (parseJStr fuel r2).map (fun p => ('\n' :: p.1, p.2))
        else if e = 'r' then (parseJStr fuel r2).map (fun p => ('\r' :: p.1, p.2))
        else if e = 't' then (parseJStr fuel r2).map (fun p => ('\t' :: p.1, p.2))
        else if e = 'u' then
          match parseHex4 r2 with
          | none => none
          | some (n, r3) =>
            if 0xD800 ≤ n ∧ n ≤ 0xDBFF then
              match r3 with
              | '\\' :: 'u' :: r4 =>
                match parseHex4 r4 with
                | some (n2, r5) =>
                  if 0xDC00 ≤ n2 ∧ n2 ≤ 0xDFFF then
                    (parseJStr fuel r5).map (fun p =>
                      (Char.ofNat (0x10000 + (n - 0xD800) * 0x400 + (n2 - 0xDC00)) :: p.1, p.2))
                  else none
                | none => none
              | _ => none
            else if 0xDC00 ≤ n ∧ n ≤ 0xDFFF then none
            else (parseJStr fuel r3).map (fun p => (Char.ofNat n :: p.1, p.2))
        else none
    else if c.toNat < 0x20 then none
    else (parseJStr fuel r).map (fun p => (c :: p.1, p.2))

/-- Exponent suffix of a JSON number literal. -/
def parseNumExp (lit : Chars) (s : Chars) : Option (Chars × Chars) :=
  match s with
  | c :: r =>
    if c = 'e' ∨ c = 'E' then
      match r with
      | sgn :: r2 =>
        if sgn = '+' ∨ sgn = '-' then
          let ds := r2.takeWhile Char.isDigit
          if ds.isEmpty then none
          else some (lit ++ c :: sgn :: ds, r2.dropWhile Char.isDigit)
        else
          let ds := r.takeWhile Char.isDigit
          if ds.isEmpty then none
          else some (lit ++ c :: ds, r.dropWhile Char.isDigit)
      | [] => none
    else some (lit, s)
  | [] => some (lit, [])

/-- Fraction-and-exponent suffix of a JSON number literal. -/
def parseNumFrac (intLit : Chars) (s : Chars) : Option (Chars × Chars) :=
  match s with
  | '.' :: r =>
    let ds := r.takeWhile Char.isDigit
    if ds.isEmpty then none
    else parseNumExp (intLit ++ '.' :: ds) (r.dropWhile Char.isDigit)
  | _ => parseNumExp intLit s

/-- Unsigned JSON number literal (`0 | [1-9][0-9]*` plus fraction and
exponent). -/
def parseUNum (s : Chars) : Option (Chars × Chars) :=
  match s with
  | '0' :: r => parseNumFrac ['0'] r
  | c :: r =>
    if c.isDigit then
      parseNumFrac (c :: r.takeWhile Char.isDigit) (r.dropWhile Char.isDigit)
    else none
  | [] => none

/-- JSON number literal, kept verbatim. -/
def parseNumLit (s : Chars) : Option (Chars × Chars) :=
  match s with
  | '-' :: r => (parseUNum r).map (fun p => ('-' :: p.1, p.2))
  | _ => parseUNum s

mutual

def parseVal : Nat → Chars → Option (Json × Chars)
  | 0, _ => none
  | fuel + 1, s =>
    let s1 := s.dropWhile jsonWs
    match s1 with
    | [] => none
    | c :: r =>
      if c = '\x7b' then parseObjStart fuel r
      else if c = '[' then parseArrStart fuel r
      else if c = '"' then
        (parseJStr fuel r).map (fun p => (Json.str p.1, p.2))
      else if c = 'n' then
        if (S "ull").isPrefixOf r then some (Json.null, r.drop 3) else none
      else if c = 't' then
        if (S "rue").isPrefixOf r then some (Json.bool true, r.drop 3) else none
      else if c = 'f' then
        if (S "alse").isPrefixOf r then some (Json.bool false, r.drop 4) else none
      else if c = 'N' then
        if (S "aN").isPrefixOf r then some (Json.num (S "NaN"), r.drop 2) else none
      else if c = 'I' then
        if (S "nfinity").isPrefixOf r then some (Json.num (S "Infinity"), r.drop 7)
        else none
      else if c = '-' then
        match r with
        | 'I' :: r2 =>
          if (S "nfinity").isPrefixOf r2 then some (Json.num (S "-Infinity"), r2.drop 7)
          else none
        | _ => (parseNumLit s1).map (fun p => (Json.num p.1, p.2))
      else if c.isDigit then
        (parseNumLit s1).map (fun p => (Json.num p.1, p.2))
      else none

def parseArrStart : Nat → Chars → Option (Json × Chars)
  | 0, _ => none
  | fuel + 1, s =>
    let s1 := s.dropWhile jsonWs
    match s1 with
    | ']' :: r => some (Json.arr [], r)
    | _ =>
      match parseVal fuel s1 with
      | none => none
      | some (v, rest) => parseArrTail fuel [v] rest

def parseArrTail : Nat → List Json → Chars → Option (Json × Chars)
  | 0, _, _ => none
  | fuel + 1, acc, s =>
    let s1 := s.dropWhile jsonWs
    match s1 with
    | ']' :: r => some (Json.arr acc.reverse, r)
    | ',' :: r =>
      match parseVal fuel r with
      | none => none
      | some (v, rest) => parseArrTail fuel (v :: acc) rest
    | _ => none

def parseObjStart : Nat → Chars → Option (Json × Chars)
  | 0, _ => none
  | fuel + 1, s =>
    let s1 := s.dropWhile jsonWs
    match s1 with
    | '\x7d' :: r => some (Json.obj [], r)
    | _ => parseObjPair fuel [] s1

def parseObjPair : Nat → List (Chars × Json) → Chars → Option (Json × Chars)
  | 0, _, _ => none
  | fuel + 1, acc, s =>
    let s1 := s.dropWhile jsonWs
    match s1 with
    | '"' :: r =>
      match parseJStr fuel r with
      | none => none
      | some (k, rest) =>
        match rest.dropWhile jsonWs with
        | ':' :: r2 =>
          match parseVal fuel r2 with
          | none => none
          | some (v, rest2) => parseObjTail fuel (objUpsert k v acc) rest2
        | _ => none
    | _ => none

def parseObjTail : Nat → List (Chars × Json) → Chars → Option (Json × Chars)
  | 0, _, _ => none
  | fuel + 1, acc, s =>
    let s1 := s.dropWhile jsonWs
    match s1 with
    | '\x7d' :: r => some (Json.obj acc, r)
    | ',' :: r => parseObjPair fuel acc r
    | _ => none

end

/-- Python `json.loads`: parse one value and require only whitespace after
it; any parse failure models the raised `JSONDecodeError` as `none`. -/
def json_loads (s : Chars) : Option Json :=
  match parseVal (2 * lenAcc 0 s + 4) s with
  | some (v, rest) => if (rest.dropWhile jsonWs).isEmpty then some v else none
  | none => none

example : json_loads (S "\x7b\"a\": [1, \"x\"]\x7d") =
    some (Json.obj [(S "a", Json.arr [Json.num ['1'], Json.str ['x']])]) := by
  rfl

example : json_loads (S "[1, 2") = none := by rfl

/-! ## Claim C1 (`brand_tools.parse_brief_to_fields`) -/

/-- The ten-key all-empty fallback mapping returned by
`parse_brief_to_fields` on any failure (`brand_tools.py` lines 583–594). -/
def tenFields : List (Chars × Json) :=
  [(S "client_name", Json.str []), (S "industry", Json.str []),
   (S "target_audience", Json.str []), (S "goals", Json.str []),
   (S "brand_vibe", Json.str []), (S "voice_tone", Json.str []),
   (S "colors", Json.str []), (S "visual_keywords", Json.str []),
   (S "platforms", Json.str []), (S "reference_links", Json.str [])]

/-- `brand_tools.parse_brief_to_fields` with the remote interaction
injected: `reply` is either the transport raising (`Except.error`) or the
model's reply text.  The code decodes the reply with `json.loads`; any
decoded `dict` is returned as-is (no key validation), and every other
outcome — a raised transport error, a decode error, or a non-dict decode
result — falls through to the ten-key all-empty mapping. -/
def parse_brief_to_fields (reply : Except Unit Chars) : List (Chars × Json) :=
  match reply with
  | .error _ => tenFields
  | .ok text =>
    match json_loads text with
    | some (Json.obj kvs) => kvs
    | _ => tenFields

/-- The ten fixed key names, in the order of the fallback mapping. -/
def tenKeyNames : List Chars :=
  [S "client_name", S "industry", S "target_audience", S "goals",
   S "brand_vibe", S "voice_tone", S "colors", S "visual_keywords",
   S "platforms", S "reference_links"]

/-- The property claimed of every result: exactly the ten fixed keys, each
mapped to a (possibly empty) string. -/
def hasTenStringKeys (d : List (Chars × Json)) : Bool :=
  d.length = 10 &&
  tenKeyNames.all (fun k => d.any (fun kv => kv.1 = k)) &&
  d.all (fun kv => match kv.2 with | Json.str _ => true | _ => false)

/-- C1 counterexample: a remote reply that decodes to a JSON object with a
single key is returned as-is, so the result does not contain the ten
fixed keys. -/
theorem C1_ten_keys_cex :
    (parse_brief_to_fields (Except.ok (S "\x7b\"client_name\": \"Acme\"\x7d"))).length = 1 ∧
    hasTenStringKeys
      (parse_brief_to_fields (Except.ok (S "\x7b\"client_name\": \"Acme\"\x7d"))) = false := by
  exact ⟨rfl, rfl⟩

/-- C1 (amended): `parse_brief_to_fields` never raises; when the reply
decodes as a JSON object, that object's fields are returned as-is
(possibly with missing or extra keys and non-string values); in every
other case — transport error, decode failure, or a non-object decode
result — it returns exactly the ten fixed keys, each mapped to the empty
string. -/
theorem C1_parse_brief_shape (reply : Except Unit Chars) :
    (∃ t kvs, reply = Except.ok t ∧ json_loads t = some (Json.obj kvs) ∧
      parse_brief_to_fields reply = kvs) ∨
    (parse_brief_to_fields reply = tenFields ∧ hasTenStringKeys tenFields = true) := by
  cases reply with
  | error e => exact Or.inr ⟨rfl, by decide⟩
  | ok t =>
    cases hj : json_loads t with
    | none =>
      refine Or.inr ⟨?_, by decide⟩
      simp [parse_brief_to_fields, hj]
    | some v =>
      cases v with
      | obj kvs =>
        exact Or.inl ⟨t, kvs, rfl, hj, by simp [parse_brief_to_fields, hj]⟩
      | null => exact Or.inr ⟨by simp [parse_brief_to_fields, hj], by decide⟩
      | bool b => exact Or.inr ⟨by simp [parse_brief_to_fields, hj], by decide⟩
      | num l => exact Or.inr ⟨by simp [parse_brief_to_fields, hj], by decide⟩
      | str s => exact Or.inr ⟨by simp [parse_brief_to_fields, hj], by decide⟩
      | arr l => exact Or.inr ⟨by simp [parse_brief_to_fields, hj], by decide⟩

/-! ## Claim C4 (calendar rendering, `ui_app.py` lines 456–480) -/

/-- Join pieces with a separator (used by the table renderings). -/
def joinWith (sep : Chars) : List Chars → Chars
  | [] => []
  | [x] => x
  | x :: r => x ++ sep ++ joinWith sep r

/-- The six calendar record keys selected by `df[[...]]`, in order. -/
def sixKeys : List Chars :=
  [S "day", S "platform", S "post_type", S "hook", S "visual_direction", S "cta"]

/-- The renamed column headers (`df.columns = [...]`), in order. -/
def calHeaders : List Chars :=
  [S "Day", S "Platform", S "Post Type", S "Hook / Caption Idea",
   S "Visual Direction", S "CTA"]

/-- Python dict lookup on a decoded JSON object. -/
def objLookup (k : Chars) : List (Chars × Json) → Option Json
  | [] => none
  | (k', v) :: r => if k' = k then some v else objLookup k r

def asObj : Json → Option (List (Chars × Json))
  | Json.obj kvs => some kvs
  | _ => none

/-- A cell as laid out by `df.to_string`: a missing key is pandas `NaN`,
scalars print their value (nested containers are abbreviated; no claim
inspects them). -/
def jsonCellText : Option Json → Chars
  | none => S "NaN"
  | some Json.null => S "None"
  | some (Json.bool true) => S "True"
  | some (Json.bool false) => S "False"
  | some (Json.num lit) => lit
  | some (Json.str s) => s
  | some (Json.arr _) => S "[...]"
  | some (Json.obj _) => S "\x7b...\x7d"

/-- The plain-text layout of the tabular view (`df.to_string(index=False)`
modelled as the same cells in the same order; pandas column alignment is
abstracted to single-space separation). -/
def tableText (headers : List Chars) (rows : List (List (Option Json))) : Chars :=
  joinWith (S "\n")
    (joinWith (S " ") headers :: rows.map (fun r => joinWith (S " ") (r.map jsonCellText)))

/-- Traverse a list with a fallible function, failing if any element
fails. -/
def mapOptAll {α β : Type} (f : α → Option β) : List α → Option (List β)
  | [] => some []
  | a :: r =>
    match f a, mapOptAll f r with
    | some b, some bs => some (b :: bs)
    | _, _ => none

/-- The `pd.DataFrame(data)` + `df[[six keys]]` step: every element must
be a mapping (otherwise the constructor or the column selection raises,
caught by the handler), each of the six keys must appear in at least one
record (otherwise `df[[...]]` raises `KeyError`), and per-record missing
keys become `NaN` (`none`). -/
def calendarFrame (items : List Json) : Option (List (List (Option Json))) :=
  match mapOptAll asObj items with
  | none => none
  | some objs =>
    if objs.isEmpty then none
    else if sixKeys.all (fun k => objs.any (fun o => (objLookup k o).isSome)) then
      some (objs.map (fun o => sixKeys.map (fun k => objLookup k o)))
    else none

/-- The rendered calendar view: a tabular view on successful decode and
column selection, the raw text otherwise (`except` branch). -/
inductive CalView where
  | table (headers : List Chars) (rows : List (List (Option Json)))
  | raw (txt : Chars)

/-- The calendar branch of the submit handler (`ui_app.py` 456–480). -/
def renderCalendar (rawText : Chars) : CalView :=
  match json_loads rawText with
  | some (Json.arr items) =>
    match calendarFrame items with
    | some rows => CalView.table calHeaders rows
    | none => CalView.raw rawText
  | _ => CalView.raw rawText

/-- `pdf_body` as set by the calendar branch: the tabular rendering on
success, the raw text on fallback. -/
def calendarPdfBody (rawText : Chars) : Chars :=
  match renderCalendar rawText with
  | CalView.table h rows => tableText h rows
  | CalView.raw t => t

/-- The claim's hypothesis: the raw text decodes to a JSON array of 30
records, each a mapping containing the six calendar keys. -/
def validCalendar30 (raw : Chars) : Bool :=
  match json_loads raw with
  | some (Json.arr items) =>
    items.length = 30 &&
    items.all (fun it =>
      match it with
      | Json.obj kvs => sixKeys.all (fun k => (objLookup k kvs).isSome)
      | _ => false)
  | _ => false

theorem mapM_asObj_spec {items : List Json}
    (h : ∀ it ∈ items, ∃ kvs, it = Json.obj kvs) :
    ∃ objs, mapOptAll asObj items = some objs ∧ objs.length = items.length ∧
      ∀ o ∈ objs, Json.obj o ∈ items := by
  induction items with
  | nil => exact ⟨[], rfl, rfl, by simp⟩
  | cons it r ih =>
    obtain ⟨kvs, rfl⟩ := h it (List.mem_cons_self _ _)
    obtain ⟨objs, h1, h2, h3⟩ := ih (fun x hx => h x (List.mem_cons_of_mem _ hx))
    refine ⟨kvs :: objs, ?_, by simp [h2], ?_⟩
    · rw [mapOptAll, h1]
      rfl
    · intro o ho
      rcases List.mem_cons.1 ho with rfl | ho2
      · exact List.mem_cons_self _ _
      · exact List.mem_cons_of_mem _ (h3 o ho2)

/-- C4: when the raw model text decodes as a valid 30-record calendar
array, the view is a table of exactly 30 rows and 6 columns under the
fixed renamed headers, and the plain-text form for packaging is the
tabular rendering; when decoding fails, both the view and the plain-text
form fall back to the raw text unmodified. -/
theorem C4_calendar_render (raw : Chars) :
    (validCalendar30 raw = true →
      ∃ rows, renderCalendar raw = CalView.table calHeaders rows ∧
        rows.length = 30 ∧ (∀ r ∈ rows, r.length = 6) ∧
        calendarPdfBody raw = tableText calHeaders rows) ∧
    (json_loads raw = none →
      renderCalendar raw = CalView.raw raw ∧ calendarPdfBody raw = raw) := by
  constructor
  · intro hv
    cases hj : json_loads raw with
    | none => simp [validCalendar30, hj] at hv
    | some v =>
      cases v with
      | arr items =>
        simp only [validCalendar30, hj, Bool.and_eq_true, decide_eq_true_eq] at hv
        obtain ⟨hlen, hall⟩ := hv
        rw [List.all_eq_true] at hall
        have hobj : ∀ it ∈ items, ∃ kvs, it = Json.obj kvs ∧
            (sixKeys.all (fun k => (objLookup k kvs).isSome)) = true := by
          intro it hit
          have := hall it hit
          cases it with
          | obj kvs => exact ⟨kvs, rfl, this⟩
          | null => cases this
          | bool b => cases this
          | num l => cases this
          | str s => cases this
          | arr l => cases this
        obtain ⟨objs, h1, h2, h3⟩ :=
          mapM_asObj_spec (fun it hit => ⟨(hobj it hit).choose, (hobj it hit).choose_spec.1⟩)
        have hkeys : ∀ o ∈ objs, (sixKeys.all (fun k => (objLookup k o).isSome)) = true := by
          intro o ho
          obtain ⟨kvs, hk1, hk2⟩ := hobj (Json.obj o) (h3 o ho)
          cases hk1
          exact hk2
        have hlen30 : items.length = 30 := by simpa using hlen
        have hne : objs.isEmpty = false := by
          cases objs with
          | nil =>
            exfalso
            rw [List.length_nil, hlen30] at h2
            exact absurd h2 (by decide)
          | cons o r => rfl
        have hcols : sixKeys.all (fun k => objs.any (fun o => (objLookup k o).isSome)) = true := by
          rw [List.all_eq_true]
          intro k hk
          cases objs with
          | nil =>
            exfalso
            rw [List.length_nil, hlen30] at h2
            exact absurd h2 (by decide)
          | cons o r =>
            rw [List.any_eq_true]
            refine ⟨o, List.mem_cons_self _ _, ?_⟩
            have := hkeys o (List.mem_cons_self _ _)
            rw [List.all_eq_true] at this
            exact this k hk
        have hframe : calendarFrame items =
            some (objs.map (fun o => sixKeys.map (fun k => objLookup k o))) := by
          simp [calendarFrame, h1, hne, hcols]
        refine ⟨objs.map (fun o => sixKeys.map (fun k => objLookup k o)), ?_, ?_, ?_, ?_⟩
        · simp only [renderCalendar, hj, hframe]
        · rw [List.length_map, h2, hlen30]
        · intro r hr
          obtain ⟨o, _, rfl⟩ := List.mem_map.1 hr
          rw [List.length_map]
          rfl
        · simp only [calendarPdfBody, renderCalendar, hj, hframe]
      | null => simp [validCalendar30, hj] at hv
      | bool b => simp [validCalendar30, hj] at hv
      | num l => simp [validCalendar30, hj] at hv
      | str s => simp [validCalendar30, hj] at hv
      | obj kvs => simp [validCalendar30, hj] at hv
  · intro hj
    constructor
    · simp only [renderCalendar, hj]
    · simp only [calendarPdfBody, renderCalendar, hj]

/-- One well-formed calendar record (used by the C4 witness). -/
def calRecord : Chars :=
  S "\x7b\"day\":1,\"platform\":\"ig\",\"post_type\":\"reel\",\"hook\":\"h\",\"visual_direction\":\"v\",\"cta\":\"c\"\x7d"

/-- A 30-record calendar reply (used by the C4 witness). -/
def calRaw30 : Chars :=
  S "[" ++ joinWith (S ",") (List.replicate 30 calRecord) ++ S "]"

/-- The decoded value of one calendar record. -/
def recJson : Json :=
  Json.obj [(S "day", Json.num ['1']), (S "platform", Json.str (S "ig")),
    (S "post_type", Json.str (S "reel")), (S "hook", Json.str (S "h")),
    (S "visual_direction", Json.str (S "v")), (S "cta", Json.str (S "c"))]

/-- The array input remaining after some leading records: `n` more
comma-prefixed records and the closing bracket. -/
def restN : Nat → Chars
  | 0 => [']']
  | n + 1 => ',' :: (calRecord ++ restN n)

set_option maxRecDepth 6000 in
/-- Parsing one record consumes exactly the record and yields its decoded
object, for any sufficient fuel and any remaining input. -/
theorem recParse (fuel : Nat) (rest : Chars) :
    parseVal (fuel + 50) (calRecord ++ rest) = some (recJson, rest) := rfl

theorem arrStepComma (g : Nat) (acc : List Json) (r : Chars) :
    parseArrTail (g + 1) acc (',' :: r) =
      match parseVal g r with
      | none => none
      | some (v, rest) => parseArrTail g (v :: acc) rest := rfl

theorem arrBase (fuel : Nat) (acc : List Json) :
    parseArrTail (fuel + 1) acc [']'] = some (Json.arr acc.reverse, []) := rfl

theorem valBracket (g : Nat) (r : Chars) :
    parseVal (g + 1) ('[' :: r) = parseArrStart g r := rfl

theorem arrStartRec (g : Nat) (rest : Chars) :
    parseArrStart (g + 1) (calRecord ++ rest) =
      match parseVal g (calRecord ++ rest) with
      | none => none
      | some (v, rest2) => parseArrTail g [v] rest2 := rfl

/-- The array-tail loop over `n` remaining records. -/
theorem arrLoop : ∀ n fuel acc, parseArrTail (2 * n + fuel + 60) acc (restN n) =
    some (Json.arr (acc.reverse ++ List.replicate n recJson), []) := by
  intro n
  induction n with
  | zero =>
    intro fuel acc
    have h0 : 2 * 0 + fuel + 60 = (fuel + 59) + 1 := by omega
    rw [show restN 0 = [']'] from rfl, h0, arrBase]
    simp
  | succ n ih =>
    intro fuel acc
    have h1 : 2 * (n + 1) + fuel + 60 = (2 * n + fuel + 61) + 1 := by omega
    rw [show restN (n + 1) = ',' :: (calRecord ++ restN n) from rfl, h1, arrStepComma]
    have h2 : 2 * n + fuel + 61 = (2 * n + fuel + 11) + 50 := by omega
    rw [h2, recParse]
    show parseArrTail ((2 * n + fuel + 11) + 50) (recJson :: acc) (restN n) = _
    have h3 : (2 * n + fuel + 11) + 50 = 2 * n + (fuel + 1) + 60 := by omega
    rw [h3, ih (fuel + 1) (recJson :: acc)]
    simp [List.replicate_succ, List.append_assoc]

theorem joinShape : ∀ n, joinWith (S ",") (List.replicate (n + 1) calRecord) ++ [']'] =
    calRecord ++ restN n := by
  intro n
  induction n with
  | zero => rfl
  | succ n ih =>
    show (calRecord ++ S "," ++ joinWith (S ",") (List.replicate (n + 1) calRecord)) ++ [']'] = _
    rw [List.append_assoc, List.append_assoc, ih]
    rfl

theorem calShape : calRaw30 = '[' :: (calRecord ++ restN 29) := by
  show S "[" ++ joinWith (S ",") (List.replicate 30 calRecord) ++ S "]" = _
  rw [List.append_assoc]
  have h := joinShape 29
  norm_num at h
  rw [show (S "]") = [']'] from rfl, h]
  rfl

theorem lenAcc_cons (n : Nat) (c : Char) (t : Chars) :
    lenAcc n (c :: t) = lenAcc (n + 1) t := rfl

theorem lenAcc_append : ∀ (a : Chars) (n : Nat) (b : Chars),
    lenAcc n (a ++ b) = lenAcc (lenAcc n a) b := by
  intro a
  induction a with
  | nil => intro n b; rfl
  | cons c t ih => intro n b; exact ih (n + 1) b

set_option maxRecDepth 1000 in
theorem lenAcc_rec (n : Nat) : lenAcc n calRecord = n + 88 := rfl

theorem lenAcc_restN : ∀ k n, lenAcc n (restN k) = n + 89 * k + 1 := by
  intro k
  induction k with
  | zero => intro n; rfl
  | succ k ih =>
    intro n
    show lenAcc (n + 1) (calRecord ++ restN k) = _
    rw [lenAcc_append, lenAcc_rec, ih]
    omega

theorem lenAcc_calRaw30 : lenAcc 0 calRaw30 = 2671 := by
  rw [calShape, lenAcc_cons, lenAcc_append, lenAcc_rec, lenAcc_restN]

theorem parseTop : parseVal 5346 calRaw30 = some (Json.arr (List.replicate 30 recJson), []) := by
  rw [calShape]
  calc parseVal 5346 ('[' :: (calRecord ++ restN 29))
      = parseArrStart 5345 (calRecord ++ restN 29) := valBracket 5345 _
    _ = match parseVal 5344 (calRecord ++ restN 29) with
        | none => none
        | some (v, rest2) => parseArrTail 5344 [v] rest2 := arrStartRec 5344 _
    _ = some (Json.arr (List.replicate 30 recJson), []) := by
        rw [show (5344 : Nat) = 5294 + 50 from rfl, recParse]
        show parseArrTail (5294 + 50) [recJson] (restN 29) = _
        rw [show (5294 : Nat) + 50 = 2 * 29 + 5226 + 60 by norm_num, arrLoop 29 5226 [recJson]]
        simp [List.replicate_succ]

theorem calRaw30_loads : json_loads calRaw30 = some (Json.arr (List.replicate 30 recJson)) := by
  unfold json_loads
  rw [lenAcc_calRaw30]
  norm_num
  rw [parseTop]
  simp

/-- The C4 witness input satisfies the valid-calendar hypothesis. -/
theorem calValid : validCalendar30 calRaw30 = true := by
  unfold validCalendar30
  rw [calRaw30_loads]
  simp only [List.length_replicate, List.all_eq_true, Bool.and_eq_true, decide_eq_true_eq]
  refine ⟨trivial, fun it hit => ?_⟩
  rw [List.eq_of_mem_replicate hit]
  decide

/-- Witness for C4 at concrete inputs: a valid 30-record array and a
truncated array. -/
theorem C4_calendar_render_witness :
    (∃ rows, renderCalendar calRaw30 = CalView.table calHeaders rows ∧
      rows.length = 30 ∧ (∀ r ∈ rows, r.length = 6) ∧
      calendarPdfBody calRaw30 = tableText calHeaders rows) ∧
    (renderCalendar (S "[ not json") = CalView.raw (S "[ not json") ∧
      calendarPdfBody (S "[ not json") = S "[ not json") :=
  ⟨(C4_calendar_render calRaw30).1 calValid,
   (C4_calendar_render (S "[ not json")).2 (by rfl)⟩

/-! ## Claim C5 (palette truncation, `ui_app.py` lines 485–493) -/

/-- The literal marker heading checked by the palette branch. -/
def palM : Chars := S "Palette JSON"

/-- The fenced-code-block opener checked by the palette branch. -/
def fenceM : Chars := S "```json"

/-- One defensive truncation step of the palette branch:
`if marker in text: text = text.split(marker)[0].rstrip()`. -/
def paletteStep (m s : Chars) : Chars :=
  if containsSub m s then pyRstrip (cutAt m s) else s

/-- The palette branch's `display_text` (`ui_app.py` 486–491): the
`"Palette JSON"` split applied first, the ```` ```json ```` split applied
to its result. -/
def paletteDisplay (s : Chars) : Chars :=
  paletteStep fenceM (paletteStep palM s)

/-- Modelled from the spec's words: the input truncated at the first
occurrence of either literal marker. -/
def truncAtMarkers : Chars → Chars
  | [] => []
  | c :: t =>
    if palM.isPrefixOf (c :: t) || fenceM.isPrefixOf (c :: t) then []
    else c :: truncAtMarkers t

/-- Modelled from the spec's words: the raw text truncated at the first
occurrence of the literal marker heading or the fenced code block opener,
discarding everything from that marker onward, with trailing whitespace
trimmed; unchanged when no marker occurs. -/
def specPaletteTruncate (s : Chars) : Chars :=
  if containsSub palM s || containsSub fenceM s then pyRstrip (truncAtMarkers s)
  else s

theorem cutAt_nil_of_pref {m s : Chars} (hm : m ≠ []) (h : m.isPrefixOf s = true) :
    cutAt m s = [] := by
  cases s with
  | nil =>
    exact absurd (List.prefix_nil.1 (List.isPrefixOf_iff_prefix.1 h)) hm
  | cons c t => rw [cutAt, if_pos h]

/-- `cutAt` is insensitive to extending the input past an occurrence of
the marker. -/
theorem cutAt_pref_ext {m : Chars} (hm : m ≠ []) :
    ∀ t' u, m <:+: t' → cutAt m t' = cutAt m (t' ++ u) := by
  intro t'
  induction t' with
  | nil => intro u h; exact absurd (List.infix_nil.1 h) hm
  | cons c tt ih =>
    intro u h
    by_cases hp : m.isPrefixOf (c :: tt) = true
    · have hp2 : m.isPrefixOf (c :: tt ++ u) = true := by
        rw [List.isPrefixOf_iff_prefix] at hp ⊢
        exact hp.trans (List.prefix_append _ _)
      rw [cutAt_nil_of_pref hm hp, cutAt_nil_of_pref hm hp2]
    · have hp2 : m.isPrefixOf (c :: (tt ++ u)) = false := by
        cases hb : m.isPrefixOf (c :: (tt ++ u)) with
        | false => rfl
        | true =>
          exfalso
          have h1 : m <+: c :: (tt ++ u) := List.isPrefixOf_iff_prefix.1 hb
          have h2 : (c :: tt) <+: c :: (tt ++ u) :=
            (List.cons_prefix_cons).2 ⟨rfl, List.prefix_append _ _⟩
          have h3 : m <+: c :: tt :=
            List.prefix_of_prefix_length_le h1 h2 h.length_le
          exact hp (List.isPrefixOf_iff_prefix.2 h3)
      rw [cutAt, if_neg (by simp [hp]), List.cons_append, cutAt,
        if_neg (by simp [hp2])]
      congr 1
      rcases List.infix_cons_iff.1 h with hpre | hinf
      · exact absurd (List.isPrefixOf_iff_prefix.2 hpre) (by simp [hp])
      · exact ih u hinf

theorem trunc_eq3 {s : Chars} (hnp : containsSub palM s = false) :
    truncAtMarkers s = cutAt fenceM s := by
  induction s with
  | nil => rfl
  | cons c t ih =>
    rw [containsSub, Bool.or_eq_false_iff] at hnp
    by_cases hq : fenceM.isPrefixOf (c :: t) = true
    · rw [truncAtMarkers, if_pos (by simp [hq]), cutAt, if_pos hq]
    · rw [truncAtMarkers, if_neg (by simp [hnp.1, hq]), cutAt, if_neg hq]
      congr 1
      exact ih hnp.2

theorem trunc_eq {s : Chars} (hf : containsSub fenceM (cutAt palM s) = false) :
    truncAtMarkers s = cutAt palM s := by
  induction s with
  | nil => rfl
  | cons c t ih =>
    by_cases hp : palM.isPrefixOf (c :: t) = true
    · rw [truncAtMarkers, if_pos (by simp [hp]), cutAt, if_pos hp]
    · by_cases hq : fenceM.isPrefixOf (c :: t) = true
      · exfalso
        by_cases hc : containsSub palM (c :: t) = true
        · obtain ⟨q, hdec⟩ := cutAt_decomp hc
          by_cases hlen : fenceM.length ≤ (cutAt palM (c :: t)).length
          · have hfs : fenceM <+: (c :: t) := List.isPrefixOf_iff_prefix.1 hq
            have hcs : cutAt palM (c :: t) <+: (c :: t) := cutAt_pref _ _
            have hcf : fenceM <+: cutAt palM (c :: t) :=
              List.prefix_of_prefix_length_le hfs hcs hlen
            exact absurd (containsSub_of_isInf hcf.isInfix) (by simp [hf])
          · push_neg at hlen
            have hcs : cutAt palM (c :: t) <+: (c :: t) := cutAt_pref _ _
            have hfs : fenceM <+: (c :: t) := List.isPrefixOf_iff_prefix.1 hq
            have hcf : cutAt palM (c :: t) <+: fenceM :=
              List.prefix_of_prefix_length_le hcs hfs (le_of_lt hlen)
            obtain ⟨z, hz⟩ := hcf
            have hzne : z ≠ [] := by
              intro h0
              rw [h0, List.append_nil] at hz
              rw [← hz] at hlen
              exact lt_irrefl _ hlen
            obtain ⟨w, hw⟩ := hfs
            have hzw : palM ++ q = z ++ w := by
              refine List.append_cancel_left
                (show cutAt palM (c :: t) ++ (palM ++ q) = cutAt palM (c :: t) ++ (z ++ w) from ?_)
              rw [← List.append_assoc, ← hdec]
              rw [← List.append_assoc, hz, hw]
            cases z with
            | nil => exact hzne rfl
            | cons zh zt =>
              have hzh : zh = 'P' := by
                have hh : (palM ++ q).head? = some 'P' := rfl
                rw [hzw] at hh
                simpa using hh
              have hmem : zh ∈ fenceM := by
                rw [← hz]
                exact List.mem_append_right _ (List.mem_cons_self _ _)
              rw [hzh] at hmem
              exact absurd hmem (by decide)
        · have hc' : containsSub palM (c :: t) = false := by simpa using hc
          rw [cutAt_of_not_contains hc'] at hf
          have hcf : containsSub fenceM (c :: t) = true := by
            rw [containsSub, hq]
            rfl
          exact absurd hcf (by simp [hf])
      · rw [truncAtMarkers, if_neg (by simp [hp, hq]), cutAt, if_neg hp]
        congr 1
        apply ih
        rw [cutAt, if_neg hp, containsSub] at hf
        exact (Bool.or_eq_false_iff.1 hf).2

theorem trunc_eq2 {s : Chars} (hp2 : containsSub fenceM (cutAt palM s) = true) :
    truncAtMarkers s = cutAt fenceM (cutAt palM s) := by
  induction s with
  | nil =>
    rw [show cutAt palM [] = [] from rfl, containsSub] at hp2
    exact absurd hp2 (by decide)
  | cons c t ih =>
    by_cases hp : palM.isPrefixOf (c :: t) = true
    · rw [cutAt, if_pos hp, containsSub] at hp2
      exact absurd hp2 (by decide)
    · by_cases hq : fenceM.isPrefixOf (c :: t) = true
      · rw [truncAtMarkers, if_pos (by simp [hq])]
        by_cases hc : containsSub palM (c :: t) = true
        · have hlen : fenceM.length ≤ (cutAt palM (c :: t)).length :=
            (containsSub_eq_true_iff.1 hp2).length_le
          have hcs := cutAt_pref palM (c :: t)
          have hfs := List.isPrefixOf_iff_prefix.1 hq
          have hcf : fenceM <+: cutAt palM (c :: t) :=
            List.prefix_of_prefix_length_le hfs hcs hlen
          rw [cutAt_nil_of_pref (by decide) (List.isPrefixOf_iff_prefix.2 hcf)]
        · have hc' : containsSub palM (c :: t) = false := by simpa using hc
          rw [cutAt_of_not_contains hc', cutAt_nil_of_pref (by decide) hq]
      · rw [truncAtMarkers, if_neg (by simp [hp, hq])]
        rw [cutAt, if_neg hp] at hp2 ⊢
        have hnq : fenceM.isPrefixOf (c :: cutAt palM t) = false := by
          cases hb : fenceM.isPrefixOf (c :: cutAt palM t) with
          | false => rfl
          | true =>
            exfalso
            have h1 : fenceM <+: c :: cutAt palM t := List.isPrefixOf_iff_prefix.1 hb
            have h2 : (c :: cutAt palM t) <+: (c :: t) :=
              (List.cons_prefix_cons).2 ⟨rfl, cutAt_pref _ _⟩
            exact hq (List.isPrefixOf_iff_prefix.2 (h1.trans h2))
        rw [cutAt, if_neg (by simp [hnq])]
        congr 1
        apply ih
        rw [containsSub, hnq] at hp2
        simpa using hp2

/-- C5: the palette branch's sequential defensive truncation equals the
spec's single truncation at the first occurrence of either literal marker
("Palette JSON" or the ```` ```json ```` opener), with trailing whitespace
trimmed; in particular the display text ends exactly where the first
marker begins. -/
theorem C5_palette_truncation (s : Chars) :
    paletteDisplay s = specPaletteTruncate s := by
  unfold paletteDisplay specPaletteTruncate
  cases hpal : containsSub palM s with
  | false =>
    have h1 : paletteStep palM s = s := by
      unfold paletteStep
      rw [if_neg (by simp [hpal])]
    rw [h1]
    cases hfen : containsSub fenceM s with
    | false =>
      have h2 : paletteStep fenceM s = s := by
        unfold paletteStep
        rw [if_neg (by simp [hfen])]
      rw [h2, if_neg (by simp [hpal, hfen])]
    | true =>
      have h2 : paletteStep fenceM s = pyRstrip (cutAt fenceM s) := by
        unfold paletteStep
        rw [if_pos hfen]
      rw [h2, if_pos (by simp [hfen]), trunc_eq3 hpal]
  | true =>
    have h1 : paletteStep palM s = pyRstrip (cutAt palM s) := by
      unfold paletteStep
      rw [if_pos hpal]
    rw [h1, if_pos (by simp [hpal])]
    cases hfen : containsSub fenceM (cutAt palM s) with
    | false =>
      have hnr : containsSub fenceM (pyRstrip (cutAt palM s)) = false := by
        cases hb : containsSub fenceM (pyRstrip (cutAt palM s)) with
        | false => rfl
        | true =>
          exact absurd (containsSub_mono (pyRstrip_pref _).isInfix hb)
            (by simp [hfen])
      have h2 : paletteStep fenceM (pyRstrip (cutAt palM s)) =
          pyRstrip (cutAt palM s) := by
        unfold paletteStep
        rw [if_neg (by simp [hnr])]
      rw [h2, trunc_eq hfen]
    | true =>
      have hinf : fenceM <:+: cutAt palM s := containsSub_eq_true_iff.1 hfen
      have hsur : fenceM <:+: pyRstrip (cutAt palM s) :=
        isInf_pyRstrip (c := 'n') hinf (by decide) (by decide)
      have h2 : paletteStep fenceM (pyRstrip (cutAt palM s)) =
          pyRstrip (cutAt fenceM (pyRstrip (cutAt palM s))) := by
        unfold paletteStep
        rw [if_pos (containsSub_of_isInf hsur)]
      rw [h2, trunc_eq2 hfen]
      congr 1
      obtain ⟨u, hu⟩ := pyRstrip_pref (cutAt palM s)
      have := cutAt_pref_ext (m := fenceM) (by decide) (pyRstrip (cutAt palM s)) u hsur
      rw [hu] at this
      exact this

example : paletteDisplay (S "Intro text. Palette JSON [1,2]") = S "Intro text." := by
  decide

/-! ## Claim C6 (`ui_app.render_color_swatches`, lines 121–141)

The source scans the markdown text with the regex

  `\|\s*([^|\n]+?)\s*\|\s*([^|\n]+?)\s*\|\s*#?([0-9A-Fa-f]{6})\s*\|`

via `re.findall` and renders one swatch per match from
`(name.strip(), role.strip(), hex_code.upper())`.  The embedding below
implements this exact pattern's matching semantics directly:

* a name/role cell spans up to the next `|` (none of `\s`, `[^|\n]` or
  the literal `\|` can consume a pipe).  Within the cell, the leading
  `\s*` is greedy, the group `([^|\n]+?)` is lazy and the trailing `\s*`
  absorbs the rest, so for a cell with any non-whitespace character the
  captured group is exactly the cell stripped of surrounding whitespace,
  and the match fails if that core contains a newline (excluded from the
  group but allowed in `\s`).  For an all-whitespace cell, backtracking
  of the greedy `\s*` yields a single-character group: the rightmost
  cell character that is not a newline.
* the colour cell is `\s*#?([0-9A-Fa-f]{6})\s*` up to the next `|`:
  leading whitespace, an optional `#`, exactly six hex digits, trailing
  whitespace — deterministic because whitespace, `#` and hex digits are
  disjoint character classes.
* `re.findall` scans left to right, skipping one character on failure
  and resuming after the end of each match.
-/

def isHexDigit (c : Char) : Bool :=
  ('0' ≤ c && c ≤ '9') || ('a' ≤ c && c ≤ 'f') || ('A' ≤ c && c ≤ 'F')

/-- Split at the first `|`: the cell content before it and the input
after it. -/
def findPipe : Chars → Option (Chars × Chars)
  | [] => none
  | c :: t =>
    if c = '|' then some ([], t)
    else (findPipe t).map (fun p => (c :: p.1, p.2))

/-- A name/role cell of the swatch row pattern (see the section
comment). -/
def segMatch (seg : Chars) : Option Chars :=
  if seg.isEmpty then none
  else if seg.all pyIsSpace then
    match seg.reverse.dropWhile (fun c => c = '\n') with
    | [] => none
    | c :: _ => some [c]
  else
    let g := pyStrip seg
    if '\n' ∈ g then none else some g

/-- The colour cell `\s*#?([0-9A-Fa-f]{6})\s*` of the swatch row
pattern. -/
def hexSegMatch (seg : Chars) : Option Chars :=
  let afterWs := seg.dropWhile pyIsSpace
  let afterHash := match afterWs with
    | '#' :: r => r
    | _ => afterWs
  match afterHash with
  | a :: b :: c :: d :: e :: f :: rest =>
    if [a, b, c, d, e, f].all isHexDigit && rest.all pyIsSpace then
      some [a, b, c, d, e, f]
    else none
  | _ => none

/-- The three cells and closing pipes after the row's opening `|`. -/
def matchPipes (r1 : Chars) : Option ((Chars × Chars × Chars) × Chars) :=
  (findPipe r1).bind fun p1 =>
    (segMatch p1.1).bind fun g1 =>
      (findPipe p1.2).bind fun p2 =>
        (segMatch p2.1).bind fun g2 =>
          (findPipe p2.2).bind fun p3 =>
            (hexSegMatch p3.1).map fun g3 => ((g1, g2, g3), p3.2)

/-- One match attempt of the swatch row pattern at the current
position. -/
def matchRowAt : Chars → Option ((Chars × Chars × Chars) × Chars)
  | [] => none
  | c :: r => if c = '|' then matchPipes r else none

theorem findPipe_len : ∀ {t : Chars} {p : Chars × Chars}, findPipe t = some p →
    p.2.length < t.length := by
  intro t
  induction t with
  | nil => intro p h; cases h
  | cons c t ih =>
    intro p h
    rw [findPipe] at h
    by_cases hc : c = '|'
    · rw [if_pos hc] at h
      cases h
      simp
    · rw [if_neg hc] at h
      cases hp : findPipe t with
      | none => rw [hp] at h; cases h
      | some q =>
        rw [hp] at h
        simp only [Option.map_some'] at h
        cases h
        have hq := ih hp
        exact Nat.lt_succ_of_lt hq

theorem findPipe_concat : ∀ {s : Chars} {t : Chars}, '|' ∉ s →
    findPipe (s ++ '|' :: t) = some (s, t) := by
  intro s
  induction s with
  | nil => intro t _; simp [findPipe]
  | cons c u ih =>
    intro t h
    have hc : ¬ c = '|' := fun e => h (e ▸ List.mem_cons_self c u)
    rw [List.cons_append, findPipe, if_neg hc, ih (fun m => h (List.mem_cons_of_mem _ m))]
    rfl

theorem matchPipes_len : ∀ {r1 : Chars} {t rest}, matchPipes r1 = some (t, rest) →
    rest.length < r1.length := by
  intro r1 t rest h
  unfold matchPipes at h
  cases h1 : findPipe r1 with
  | none => rw [h1] at h; cases h
  | some p1 =>
    rw [h1, Option.some_bind] at h
    cases hg1 : segMatch p1.1 with
    | none => rw [hg1] at h; cases h
    | some g1 =>
      rw [hg1, Option.some_bind] at h
      cases h2 : findPipe p1.2 with
      | none => rw [h2] at h; cases h
      | some p2 =>
        rw [h2, Option.some_bind] at h
        cases hg2 : segMatch p2.1 with
        | none => rw [hg2] at h; cases h
        | some g2 =>
          rw [hg2, Option.some_bind] at h
          cases h3 : findPipe p2.2 with
          | none => rw [h3] at h; cases h
          | some p3 =>
            rw [h3, Option.some_bind] at h
            cases hg3 : hexSegMatch p3.1 with
            | none => rw [hg3] at h; cases h
            | some g3 =>
              rw [hg3] at h
              simp only [Option.map_some', Option.some.injEq, Prod.mk.injEq] at h
              obtain ⟨-, rfl⟩ := h
              exact lt_trans (lt_trans (findPipe_len h3) (findPipe_len h2)) (findPipe_len h1)

/-- `re.findall` scanning loop for the swatch row pattern: attempt a
match at each position, resume after the end of each match, advance one
character on failure. -/
def swatchFindall : Chars → List (Chars × Chars × Chars)
  | [] => []
  | c :: r =>
    if c = '|' then
      match _h : matchPipes r with
      | some p => p.1 :: swatchFindall p.2
      | none => swatchFindall r
    else swatchFindall r
termination_by s => s.length
decreasing_by
  · exact Nat.lt_succ_of_lt (matchPipes_len _h)
  · exact Nat.lt_succ_self _
  · exact Nat.lt_succ_self _

/-- The tuple displayed for one regex match: `name.strip()`,
`role.strip()`, `hex_code.upper()` (ui_app.py lines 132–141). -/
def dispSwatch (p : Chars × Chars × Chars) : Chars × Chars × Chars :=
  (pyStrip p.1, pyStrip p.2.1, p.2.2.map Char.toUpper)

/-- `ui_app.render_color_swatches`: the list of swatch tuples rendered
for a markdown text (empty when there is no match). -/
def render_color_swatches (text : Chars) : List (Chars × Chars × Chars) :=
  (swatchFindall text).map dispSwatch

theorem swatchFindall_nil : swatchFindall [] = [] := by rw [swatchFindall]

theorem swatchFindall_row {r p} (h : matchPipes r = some p) :
    swatchFindall ('|' :: r) = p.1 :: swatchFindall p.2 := by
  rw [swatchFindall, if_pos rfl]
  split
  · next p2 hp =>
    rw [h] at hp
    injection hp with hp
    subst hp
    rfl
  · next hp => rw [h] at hp; cases hp

theorem swatchFindall_norow {r} (h : matchPipes r = none) :
    swatchFindall ('|' :: r) = swatchFindall r := by
  rw [swatchFindall, if_pos rfl]
  split
  · next p2 hp => rw [h] at hp; cases hp
  · rfl

theorem swatchFindall_ne {c : Char} {r} (h : ¬ c = '|') :
    swatchFindall (c :: r) = swatchFindall r := by
  rw [swatchFindall]
  simp [h]

theorem swatchFindall_skip : ∀ {pre rest : Chars}, '|' ∉ pre →
    swatchFindall (pre ++ rest) = swatchFindall rest := by
  intro pre
  induction pre with
  | nil => intro rest _; rfl
  | cons c t ih =>
    intro rest h
    have hc : ¬ c = '|' := fun e => h (e ▸ List.mem_cons_self c t)
    rw [List.cons_append, swatchFindall_ne hc]
    exact ih (fun m => h (List.mem_cons_of_mem _ m))

theorem pyStrip_cons_ws (a : Char) {x : Chars} (ha : pyIsSpace a = true) :
    pyStrip (a :: x) = pyStrip x := by
  unfold pyStrip pyLstrip
  rw [List.dropWhile_cons_of_pos ha]

theorem pyRstrip_append_ws (b : Char) {x : Chars} (hb : pyIsSpace b = true) :
    pyRstrip (x ++ [b]) = pyRstrip x := by
  unfold pyRstrip
  rw [List.reverse_append, List.reverse_singleton, List.singleton_append,
    List.dropWhile_cons_of_pos hb]

theorem pyStrip_append_ws (b : Char) {x : Chars} (hb : pyIsSpace b = true) :
    pyStrip (x ++ [b]) = pyStrip x := by
  unfold pyStrip pyLstrip
  rw [List.dropWhile_append]
  by_cases hx : (x.dropWhile pyIsSpace).isEmpty
  · rw [if_pos hx]
    have hx2 : x.dropWhile pyIsSpace = [] := by
      cases hh : x.dropWhile pyIsSpace with
      | nil => rfl
      | cons a t => rw [hh] at hx; cases hx
    rw [hx2, List.dropWhile_cons_of_pos hb, List.dropWhile_nil]
  · rw [if_neg hx]
    exact pyRstrip_append_ws b hb

theorem all_space_false {x : Chars} (hne : x ≠ []) (hs : pyStrip x = x) :
    x.all pyIsSpace = false := by
  by_contra h
  have hall : ∀ c ∈ x, pyIsSpace c = true := by
    intro c hc
    have := List.all_eq_true.mp (by simpa using h) c hc
    exact this
  have hl : pyLstrip x = [] := List.dropWhile_eq_nil_iff.mpr hall
  rw [pyStrip, hl] at hs
  exact hne (by simpa [pyRstrip] using hs.symm)

theorem segMatch_padded {x : Chars} (hne : x ≠ []) (hstrip : pyStrip x = x)
    (hnl : '\n' ∉ x) : segMatch (' ' :: x ++ [' ']) = some x := by
  have hg : pyStrip (' ' :: x ++ [' ']) = x := by
    rw [pyStrip_append_ws ' ' (by decide), pyStrip_cons_ws ' ' (by decide), hstrip]
  have hall : (' ' :: x ++ [' ']).all pyIsSpace = false := by
    have hx : x.all pyIsSpace = false := all_space_false hne hstrip
    simp only [List.all_cons, List.all_append]
    rw [hx]
    simp
  unfold segMatch
  rw [if_neg (by simp), if_neg (by rw [hall]; simp), hg]
  show (if '\n' ∈ x then (none : Option Chars) else some x) = some x
  rw [if_neg hnl]

theorem hex_not_pipe {hex : Chars} (hdig : hex.all isHexDigit = true) : '|' ∉ hex := by
  intro hm
  have := List.all_eq_true.mp hdig _ hm
  exact absurd this (by decide)

theorem length_six {α : Type} {xs : List α} (h : xs.length = 6) :
    ∃ a b c d e f, xs = [a, b, c, d, e, f] := by
  match xs, h with
  | [a, b, c, d, e, f], _ => exact ⟨a, b, c, d, e, f, rfl⟩

theorem hexSegMatch_padded {hex : Chars} (hlen : hex.length = 6)
    (hdig : hex.all isHexDigit = true) :
    hexSegMatch (' ' :: '#' :: hex ++ [' ']) = some hex := by
  obtain ⟨a, b, c, d, e, f, rfl⟩ := length_six hlen
  have hc : ([a, b, c, d, e, f].all isHexDigit && ([' '] : Chars).all pyIsSpace) = true := by
    rw [hdig]
    decide
  show (if ([a, b, c, d, e, f].all isHexDigit && ([' '] : Chars).all pyIsSpace) = true
      then some [a, b, c, d, e, f] else none) = some [a, b, c, d, e, f]
  rw [if_pos hc]

theorem matchPipes_row {nm role hex post : Chars}
    (hnm_ne : nm ≠ []) (hnm_strip : pyStrip nm = nm) (hnm_nl : '\n' ∉ nm)
    (hnm_pipe : '|' ∉ nm)
    (hro_ne : role ≠ []) (hro_strip : pyStrip role = role) (hro_nl : '\n' ∉ role)
    (hro_pipe : '|' ∉ role)
    (hlen : hex.length = 6) (hdig : hex.all isHexDigit = true) :
    matchPipes ((' ' :: nm ++ [' ']) ++ '|' ::
        ((' ' :: role ++ [' ']) ++ '|' ::
          ((' ' :: '#' :: hex ++ [' ']) ++ '|' :: post)))
      = some ((nm, role, hex), post) := by
  have hp1 : '|' ∉ (' ' :: nm) ++ [' '] := by
    intro hm
    rcases List.mem_append.mp hm with hm | hm
    · rcases List.mem_cons.mp hm with hm | hm
      · exact absurd hm (by decide)
      · exact hnm_pipe hm
    · exact absurd hm (by decide)
  have hp2 : '|' ∉ (' ' :: role) ++ [' '] := by
    intro hm
    rcases List.mem_append.mp hm with hm | hm
    · rcases List.mem_cons.mp hm with hm | hm
      · exact absurd hm (by decide)
      · exact hro_pipe hm
    · exact absurd hm (by decide)
  have hp3 : '|' ∉ (' ' :: '#' :: hex) ++ [' '] := by
    intro hm
    rcases List.mem_append.mp hm with hm | hm
    · rcases List.mem_cons.mp hm with hm | hm
      · exact absurd hm (by decide)
      · rcases List.mem_cons.mp hm with hm | hm
        · exact absurd hm (by decide)
        · exact hex_not_pipe hdig hm
    · exact absurd hm (by decide)
  have f1 := findPipe_concat (t :=
    (' ' :: role ++ [' ']) ++ '|' :: ((' ' :: '#' :: hex ++ [' ']) ++ '|' :: post)) hp1
  have f2 := findPipe_concat (t := (' ' :: '#' :: hex ++ [' ']) ++ '|' :: post) hp2
  have f3 := findPipe_concat (t := post) hp3
  have s1 := segMatch_padded hnm_ne hnm_strip hnm_nl
  have s2 := segMatch_padded hro_ne hro_strip hro_nl
  have s3 := hexSegMatch_padded hlen hdig
  simp only [matchPipes, f1, Option.some_bind, s1, f2, s2, f3, s3, Option.map_some']

theorem row_shape (pre nm role hex post : Chars) :
    pre ++ S "| " ++ nm ++ S " | " ++ role ++ S " | #" ++ hex ++ S " |" ++ post
      = pre ++ '|' :: ((' ' :: nm ++ [' ']) ++ '|' ::
          ((' ' :: role ++ [' ']) ++ '|' ::
            ((' ' :: '#' :: hex ++ [' ']) ++ '|' :: post))) := by
  show pre ++ ['|', ' '] ++ nm ++ [' ', '|', ' '] ++ role ++ [' ', '|', ' ', '#'] ++
      hex ++ [' ', '|'] ++ post = _
  simp [List.append_assoc]

/-- The palette branch around the swatch call (ui_app.py lines 485–496):
`display_text` is computed by the truncation above, shown, assigned to
`pdf_body`, and only then is `render_color_swatches(display_text)` called
(it writes swatch markup to the page and returns `None`): the view is the
pair of the truncated text and the swatch list. -/
def paletteView (raw : Chars) : Chars × List (Chars × Chars × Chars) :=
  (paletteDisplay raw, render_color_swatches (paletteDisplay raw))

/-- **C6**: any text containing the markdown row
`| name | role | #hhhhhh |` — with `name` and `role` non-empty, free of
`|` and newlines and already stripped, the hex cell exactly six hex
digits, and no `|` before the row — yields the swatch tuple
`(name, role, hex upper-cased)` followed by the matches of the remaining
text; and swatch extraction is purely additive: the plain-text form of
the palette view is the truncated text itself, unaffected by extraction. -/
theorem C6_swatch_extraction (pre nm role hex post : Chars)
    (hpre : '|' ∉ pre)
    (hnm_ne : nm ≠ []) (hnm_strip : pyStrip nm = nm) (hnm_nl : '\n' ∉ nm)
    (hnm_pipe : '|' ∉ nm)
    (hro_ne : role ≠ []) (hro_strip : pyStrip role = role) (hro_nl : '\n' ∉ role)
    (hro_pipe : '|' ∉ role)
    (hlen : hex.length = 6) (hdig : hex.all isHexDigit = true) :
    render_color_swatches (pre ++ S "| " ++ nm ++ S " | " ++ role ++ S " | #" ++
        hex ++ S " |" ++ post)
      = (nm, role, hex.map Char.toUpper) :: render_color_swatches post
    ∧ ∀ raw : Chars, (paletteView raw).1 = paletteDisplay raw := by
  constructor
  · rw [row_shape]
    unfold render_color_swatches
    rw [swatchFindall_skip hpre,
      swatchFindall_row (matchPipes_row hnm_ne hnm_strip hnm_nl hnm_pipe
        hro_ne hro_strip hro_nl hro_pipe hlen hdig),
      List.map_cons]
    show (pyStrip nm, pyStrip role, hex.map Char.toUpper) :: _ = _
    rw [hnm_strip, hro_strip]
  · intro raw
    rfl

theorem C6_swatch_extraction_witness :
    (render_color_swatches (S "Our picks:\n" ++ S "| " ++ S "Blush" ++ S " | " ++
        S "Primary" ++ S " | #" ++ S "Ff3e8E" ++ S " |" ++ [])
      = (S "Blush", S "Primary", (S "Ff3e8E").map Char.toUpper) ::
          render_color_swatches []
    ∧ ∀ raw : Chars, (paletteView raw).1 = paletteDisplay raw)
    ∧ render_color_swatches [] = [] ∧ (S "Ff3e8E").map Char.toUpper = S "FF3E8E" := by
  refine ⟨C6_swatch_extraction (S "Our picks:\n") (S "Blush") (S "Primary") (S "Ff3e8E") []
    (by decide) (by decide) (by decide) (by decide) (by decide)
    (by decide) (by decide) (by decide) (by decide) (by decide) (by decide), ?_, ?_⟩
  · rw [render_color_swatches, swatchFindall_nil]
    rfl
  · rfl

/-! ## Claim C7 (`ui_app.make_pdf`, lines 33–80) -/
/-- Python `text.replace(a, r)` for a single-character needle `a`
(each of the seven sanitize replacements has a one-character key). -/
def replaceChar (a : Char) (r : Chars) : Chars → Chars
  | [] => []
  | c :: t => (if c = a then r else [c]) ++ replaceChar a r t

/-- Python `text.encode("latin-1", "ignore").decode("latin-1")`: keep
exactly the characters with code point ≤ 255, drop the rest. -/
def latin1Ignore : Chars → Chars
  | [] => []
  | c :: t => (if c.toNat ≤ 255 then [c] else []) ++ latin1Ignore t

/-- `ui_app.make_pdf.sanitize`: the seven `str.replace` calls in the
source's dict order followed by the latin-1 ignore round-trip. -/
def sanitize (text : Chars) : Chars :=
  latin1Ignore
    (replaceChar '…' ['.', '.', '.']
      (replaceChar '’' [Char.ofNat 39]
        (replaceChar '‘' [Char.ofNat 39]
          (replaceChar '”' ['"']
            (replaceChar '“' ['"']
              (replaceChar '—' ['-']
                (replaceChar '–' ['-'] text)))))))

/-- The seven punctuation characters named by the spec (en dash, em
dash, curly double and single quotes, ellipsis). -/
def badPunct (c : Char) : Bool :=
  c = '–' || c = '—' || c = '“' || c = '”' || c = '‘' || c = '’' || c = '…'

/-- Spec-modelled: the spec's wording of sanitization as a single
per-character mapping — pretty punctuation to its ASCII substitute,
any other latin-1 character kept, any other character dropped. -/
def sanCh (c : Char) : Chars :=
  if c = '–' ∨ c = '—' then ['-']
  else if c = '“' ∨ c = '”' then ['"']
  else if c = '‘' ∨ c = '’' then [Char.ofNat 39]
  else if c = '…' then ['.', '.', '.']
  else if c.toNat ≤ 255 then [c]
  else []

/-- Spec-modelled: one-pass sanitization, `sanCh` applied to each
character in order. -/
def specSanitize : Chars → Chars
  | [] => []
  | c :: t => sanCh c ++ specSanitize t

theorem replaceChar_append (a : Char) (r : Chars) :
    ∀ x y : Chars, replaceChar a r (x ++ y) = replaceChar a r x ++ replaceChar a r y := by
  intro x y
  induction x with
  | nil => rfl
  | cons c t ih =>
    rw [List.cons_append]
    show (if c = a then r else [c]) ++ replaceChar a r (t ++ y) = _
    rw [ih]
    show _ = ((if c = a then r else [c]) ++ replaceChar a r t) ++ _
    rw [List.append_assoc]

theorem latin1Ignore_append :
    ∀ x y : Chars, latin1Ignore (x ++ y) = latin1Ignore x ++ latin1Ignore y := by
  intro x y
  induction x with
  | nil => rfl
  | cons c t ih =>
    rw [List.cons_append]
    show (if c.toNat ≤ 255 then [c] else []) ++ latin1Ignore (t ++ y) = _
    rw [ih]
    show _ = ((if c.toNat ≤ 255 then [c] else []) ++ latin1Ignore t) ++ _
    rw [List.append_assoc]

theorem sanitize_append (x y : Chars) :
    sanitize (x ++ y) = sanitize x ++ sanitize y := by
  unfold sanitize
  rw [replaceChar_append, replaceChar_append, replaceChar_append, replaceChar_append,
    replaceChar_append, replaceChar_append, replaceChar_append, latin1Ignore_append]

theorem replaceChar_single_ne {a : Char} (r : Chars) {c : Char} (h : ¬ c = a) :
    replaceChar a r [c] = [c] := by
  show (if c = a then r else [c]) ++ replaceChar a r [] = [c]
  rw [if_neg h]
  rfl

theorem sanitize_single (c : Char) : sanitize [c] = sanCh c := by
  by_cases h1 : c = '–'
  · subst h1; decide
  by_cases h2 : c = '—'
  · subst h2; decide
  by_cases h3 : c = '“'
  · subst h3; decide
  by_cases h4 : c = '”'
  · subst h4; decide
  by_cases h5 : c = '‘'
  · subst h5; decide
  by_cases h6 : c = '’'
  · subst h6; decide
  by_cases h7 : c = '…'
  · subst h7; decide
  unfold sanitize
  rw [replaceChar_single_ne _ h1, replaceChar_single_ne _ h2, replaceChar_single_ne _ h3,
    replaceChar_single_ne _ h4, replaceChar_single_ne _ h5, replaceChar_single_ne _ h6,
    replaceChar_single_ne _ h7]
  unfold sanCh
  rw [if_neg (not_or.mpr ⟨h1, h2⟩), if_neg (not_or.mpr ⟨h3, h4⟩),
    if_neg (not_or.mpr ⟨h5, h6⟩), if_neg h7]
  show (if c.toNat ≤ 255 then [c] else []) ++ latin1Ignore [] = _
  rw [show latin1Ignore [] = [] from rfl, List.append_nil]

theorem sanitize_eq_spec : ∀ t : Chars, sanitize t = specSanitize t := by
  intro t
  induction t with
  | nil => rfl
  | cons c u ih =>
    have : (c :: u) = [c] ++ u := rfl
    rw [this, sanitize_append, sanitize_single, ih]
    rfl

theorem sanCh_safe {c d : Char} (h : d ∈ sanCh c) : d.toNat ≤ 255 := by
  unfold sanCh at h
  split_ifs at h with h1 h2 h3 h4 h5
  · rw [List.mem_singleton] at h; subst h; decide
  · rw [List.mem_singleton] at h; subst h; decide
  · rw [List.mem_singleton] at h; subst h; decide
  · have hd : d = Char.ofNat 46 := by simpa using h
    subst hd; decide
  · rw [List.mem_singleton] at h; subst h; exact h5
  · cases h

theorem spec_safe : ∀ {t : Chars} {d : Char}, d ∈ specSanitize t → d.toNat ≤ 255 := by
  intro t
  induction t with
  | nil => intro d h; cases h
  | cons c u ih =>
    intro d h
    rw [specSanitize] at h
    rcases List.mem_append.mp h with h | h
    · exact sanCh_safe h
    · exact ih h

theorem le255_not_bad {c : Char} (h : c.toNat ≤ 255) : badPunct c = false := by
  by_contra hb
  have hb2 : badPunct c = true := by
    cases hq : badPunct c
    · exact absurd hq hb
    · rfl
  unfold badPunct at hb2
  simp only [Bool.or_eq_true, decide_eq_true_eq] at hb2
  rcases hb2 with ((((((e | e) | e) | e) | e) | e) | e) <;> (subst e; exact absurd h (by decide))

/-- Characters with a latin-1 encoding. -/
def latin1Safe (s : Chars) : Bool := s.all (fun c => decide (c.toNat ≤ 255))

/-- Spec-modelled: FPDF is an external library (not under `src/`), so
its contract is taken from the spec: writing cells whose text is
latin-1-safe produces a non-empty PDF byte buffer (magic header,
content, trailer), while a cell with a character outside latin-1 raises
(modelled as `none`).  `make_pdf` only ever feeds it sanitized text, so
the failure branch is provably dead. -/
def fpdfRender (cells : List Chars) : Option Chars :=
  if cells.all latin1Safe then
    some (S "%PDF-1.3 " ++ cells.flatten ++ S " %%EOF")
  else none

/-- `ui_app.make_pdf`: sanitize the title and body, write the title
cell, then one cell per body line (a blank line is replaced by a single
space so `multi_cell` still advances), and return the output bytes. -/
def make_pdf (title body : Chars) : Option Chars :=
  fpdfRender (sanitize title ::
    (splitOnChar '\n' (sanitize body)).map
      (fun l => if (pyStrip l).isEmpty then S " " else l))

theorem splitOnChar_mem {e : Char} : ∀ {s : Chars} {l : Chars},
    l ∈ splitOnChar e s → ∀ {c : Char}, c ∈ l → c ∈ s := by
  intro s
  induction s with
  | nil =>
    intro l hl c hc
    rw [splitOnChar] at hl
    rw [List.mem_singleton] at hl
    subst hl
    cases hc
  | cons c0 t ih =>
    intro l hl c hc
    rw [splitOnChar] at hl
    by_cases h0 : c0 = e
    · rw [if_pos h0] at hl
      rcases List.mem_cons.mp hl with hl | hl
      · subst hl; cases hc
      · exact List.mem_cons_of_mem _ (ih hl hc)
    · rw [if_neg h0] at hl
      cases hsp : splitOnChar e t with
      | nil =>
        rw [hsp] at hl
        rw [List.mem_singleton] at hl
        subst hl
        rcases List.mem_cons.mp hc with hc | hc
        · subst hc; exact List.mem_cons_self _ _
        · cases hc
      | cons hd tl =>
        rw [hsp] at hl
        rcases List.mem_cons.mp hl with hl | hl
        · subst hl
          rcases List.mem_cons.mp hc with hc | hc
          · subst hc; exact List.mem_cons_self _ _
          · exact List.mem_cons_of_mem _ (ih (hsp ▸ List.mem_cons_self hd tl) hc)
        · exact List.mem_cons_of_mem _ (ih (hsp ▸ List.mem_cons_of_mem hd hl) hc)

theorem sanitize_latin1Safe (t : Chars) : latin1Safe (sanitize t) = true := by
  rw [latin1Safe, List.all_eq_true]
  intro c hc
  rw [sanitize_eq_spec] at hc
  exact decide_eq_true (spec_safe hc)

/-- **C7**: sanitization equals the spec's per-character map (dashes to
a hyphen, curly double quotes to a straight double quote, curly single
quotes to an apostrophe, ellipsis to three dots, any other non-latin-1
character dropped); every character of the sanitized text is latin-1 and
none is raw pretty punctuation; and for every title and body (including
empty), make_pdf returns a non-empty document buffer, never the raising
branch. -/
theorem C7_make_pdf_packaging (title body : Chars) :
    sanitize body = specSanitize body
    ∧ (∀ c : Char, c ∈ sanitize body → c.toNat ≤ 255 ∧ badPunct c = false)
    ∧ ∃ buf : Chars, make_pdf title body = some buf ∧ buf ≠ [] := by
  refine ⟨sanitize_eq_spec body, ?_, ?_⟩
  · intro c hc
    rw [sanitize_eq_spec] at hc
    have h1 := spec_safe hc
    exact ⟨h1, le255_not_bad h1⟩
  · have hall : (sanitize title ::
        (splitOnChar '\n' (sanitize body)).map
          (fun l => if (pyStrip l).isEmpty then S " " else l)).all latin1Safe = true := by
      rw [List.all_cons, sanitize_latin1Safe]
      rw [Bool.true_and, List.all_eq_true]
      intro l hl
      rcases List.mem_map.mp hl with ⟨l0, hl0, hmap⟩
      by_cases hb : (pyStrip l0).isEmpty
      · rw [if_pos hb] at hmap
        subst hmap
        decide
      · rw [if_neg hb] at hmap
        subst hmap
        rw [latin1Safe, List.all_eq_true]
        intro c hc
        have hcb : c ∈ sanitize body := splitOnChar_mem hl0 hc
        rw [sanitize_eq_spec] at hcb
        exact decide_eq_true (spec_safe hcb)
    refine ⟨S "%PDF-1.3 " ++ (sanitize title ::
      (splitOnChar '\n' (sanitize body)).map
        (fun l => if (pyStrip l).isEmpty then S " " else l)).flatten ++ S " %%EOF", ?_, ?_⟩
    · rw [make_pdf, fpdfRender, if_pos hall]
    · intro hnil
      have := congrArg List.length hnil
      rw [List.length_append, List.length_append] at this
      rw [show (S "%PDF-1.3 ").length = 9 from rfl] at this
      simp at this

theorem C7_make_pdf_packaging_witness :
    sanitize (S "a—b…“q”") = specSanitize (S "a—b…“q”")
    ∧ ('-'.toNat ≤ 255 ∧ badPunct '-' = false)
    ∧ (∃ buf : Chars, make_pdf (S "T") (S "a—b…“q”") = some buf ∧ buf ≠ [])
    ∧ sanitize (S "a—b…“q”") = S "a-b...\"q\"" := by
  obtain ⟨h1, h2, h3⟩ := C7_make_pdf_packaging (S "T") (S "a—b…“q”")
  exact ⟨h1, h2 '-' (by decide), h3, by decide⟩

/-! ## Claim C8 (zip export block, `ui_app.py` lines 537–542)

The session dict `st.session_state["project_files"]` maps filenames to
PDF bytes; a Python dict has pairwise-distinct keys.  The export loop
calls `z.writestr(fname, data_bytes)` once per item in order.  The
`zipfile` library is external (not under `src/`), so the archive itself
is spec-modelled: an archive is its ordered list of `(name, data)`
entries, `writestr` appends one entry, and extracting a name returns
the data of the entry bearing it. -/

/-- Bytes are modelled as lists of byte values. -/
abbrev Bytes := List Nat

/-- The zip export loop: one `writestr` per mapping item, in mapping
order, starting from an empty archive. -/
def toArchive (files : List (Chars × Bytes)) : List (Chars × Bytes) :=
  files.foldl (fun acc e => acc ++ [e]) []

/-- Spec-modelled extraction: `ZipFile.read(n)` returns the data of the
entry named `n`. -/
def readEntry (n : Chars) : List (Chars × Bytes) → Option Bytes
  | [] => none
  | e :: t => if e.1 = n then some e.2 else readEntry n t

theorem toArchive_foldl (files : List (Chars × Bytes)) :
    ∀ a : List (Chars × Bytes), files.foldl (fun acc e => acc ++ [e]) a = a ++ files := by
  induction files with
  | nil => intro a; simp [List.foldl]
  | cons e t ih =>
    intro a
    rw [List.foldl, ih, List.append_assoc]
    rfl

theorem toArchive_eq (files : List (Chars × Bytes)) : toArchive files = files := by
  rw [toArchive, toArchive_foldl]
  rfl

theorem readEntry_of_nodup : ∀ {files : List (Chars × Bytes)},
    (files.map Prod.fst).Nodup → ∀ e ∈ files, readEntry e.1 files = some e.2 := by
  intro files
  induction files with
  | nil => intro _ e he; cases he
  | cons f t ih =>
    intro hnd e he
    rw [List.map_cons, List.nodup_cons] at hnd
    rcases List.mem_cons.mp he with he | he
    · subst he
      rw [readEntry, if_pos rfl]
    · rw [readEntry]
      have hne : ¬ f.1 = e.1 := by
        intro hfe
        exact hnd.1 (hfe ▸ List.mem_map_of_mem Prod.fst he)
      rw [if_neg hne]
      exact ih hnd.2 e he

/-- **C8**: for every filename-to-bytes mapping with pairwise-distinct
filenames, the produced archive has exactly one entry per item, the
entry names are the filenames verbatim and in order, and extracting
each filename yields exactly the bytes stored under it. -/
theorem C8_zip_roundtrip (files : List (Chars × Bytes))
    (hnd : (files.map Prod.fst).Nodup) :
    (toArchive files).length = files.length
    ∧ (toArchive files).map Prod.fst = files.map Prod.fst
    ∧ ∀ e ∈ files, readEntry e.1 (toArchive files) = some e.2 := by
  rw [toArchive_eq]
  exact ⟨rfl, rfl, readEntry_of_nodup hnd⟩

theorem C8_zip_roundtrip_witness :
    (toArchive [(S "brief.pdf", [37, 80, 68, 70]), (S "logo.pdf", [4, 5])]).length = 2
    ∧ readEntry (S "brief.pdf")
        (toArchive [(S "brief.pdf", [37, 80, 68, 70]), (S "logo.pdf", [4, 5])])
        = some [37, 80, 68, 70]
    ∧ readEntry (S "logo.pdf")
        (toArchive [(S "brief.pdf", [37, 80, 68, 70]), (S "logo.pdf", [4, 5])])
        = some [4, 5] := by
  obtain ⟨h1, h2, h3⟩ := C8_zip_roundtrip
    [(S "brief.pdf", [37, 80, 68, 70]), (S "logo.pdf", [4, 5])] (by decide)
  exact ⟨by rw [h1]; rfl, h3 (S "brief.pdf", [37, 80, 68, 70]) (by decide),
    h3 (S "logo.pdf", [4, 5]) (by decide)⟩

/-! ## Claim C10 (submit handler, `ui_app.py` lines 408–542)

The submit handler first checks `if not client_name.strip()` and, when
the name is blank, issues a warning and calls `st.stop()`, so nothing
after the guard runs.  Otherwise it calls exactly one `generate_*`
function (plus, for the AI Logo Sketch Kit, the moodboard image call),
renders the result, and — when the rendered body is non-blank — packages
a PDF and stores it in the session dict.  The model records the
externally visible effects of one submission; the remote reply is a
parameter (the LLM transport is external to the repository). -/

/-- The eleven entries of the UI mode selector. -/
inductive Mode where
  | discovery
  | styleGuide
  | logoDirections
  | sketchKit
  | siteOutline
  | proposal
  | palette
  | voiceGuide
  | invoice
  | domains
  | calendar
deriving DecidableEq

/-- The selector label of each mode (the `mode` string in the source). -/
def modeLabel : Mode → Chars
  | Mode.discovery => S "Brand Discovery Summary"
  | Mode.styleGuide => S "Brand Style Guide"
  | Mode.logoDirections => S "Logo Direction Ideas"
  | Mode.sketchKit => S "AI Logo Sketch Kit"
  | Mode.siteOutline => S "Website / Landing Page Outline"
  | Mode.proposal => S "Project Summary & Proposal"
  | Mode.palette => S "Color Palette Generator"
  | Mode.voiceGuide => S "Brand Voice Guide"
  | Mode.invoice => S "Proposal → Invoice Outline"
  | Mode.domains => S "Domain & Tagline Ideas"
  | Mode.calendar => S "30-Day Content Calendar"

/-- `mode.replace(" ", "_").replace("→", "to").replace("&", "and").lower()`. -/
def modeSlug (m : Mode) : Chars :=
  (replaceChar '&' (S "and")
    (replaceChar '→' (S "to")
      (replaceChar ' ' (S "_") (modeLabel m)))).map Char.toLower

/-- Remote calls made by one submission: one text generation, plus the
moodboard image call for the AI Logo Sketch Kit. -/
def genCallsOf : Mode → Nat
  | Mode.sketchKit => 2
  | _ => 1

/-- The plain-text form packaged for the PDF, per mode: the calendar
table (or raw-text fallback), the truncated palette text, or the reply
itself. -/
def pdfBodyOf (m : Mode) (reply : Chars) : Chars :=
  match m with
  | Mode.calendar => calendarPdfBody reply
  | Mode.palette => paletteDisplay reply
  | _ => reply

/-- `st.session_state["project_files"][filename] = pdf_bytes`: Python
dict assignment keeps an existing key in place and overwrites its
value, otherwise appends the pair. -/
def dictInsert (k : Chars) (v : Bytes) : List (Chars × Bytes) → List (Chars × Bytes)
  | [] => [(k, v)]
  | e :: t => if e.1 = k then (k, v) :: t else e :: dictInsert k v t

/-- The PDF bytes stored in the session (byte values of the rendered
buffer). -/
def pdfBytesOf (title body : Chars) : Bytes :=
  ((make_pdf title body).getD []).map Char.toNat

/-- Externally visible effects of one submission: whether the blank-name
warning fired, how many remote generation calls ran, whether a document
was packaged, and the resulting session filename-to-bytes mapping. -/
structure SubmitEffects where
  warned : Bool
  genCalls : Nat
  pdfMade : Bool
  session : List (Chars × Bytes)
deriving DecidableEq

/-- The submit handler (ui_app.py lines 408–542): guard on a blank
client name, otherwise generate, render, and package. -/
def handleSubmit (a : IntakeAnswers) (mode : Mode) (reply : Chars)
    (session : List (Chars × Bytes)) : SubmitEffects :=
  if (pyStrip a.client_name).isEmpty then
    ⟨true, 0, false, session⟩
  else
    let body := pdfBodyOf mode reply
    if (pyStrip body).isEmpty then
      ⟨false, genCallsOf mode, false, session⟩
    else
      let fname := (if a.client_name.isEmpty then S "brand" else a.client_name) ++
        S "_" ++ modeSlug mode ++ S ".pdf"
      ⟨false, genCallsOf mode, true,
        dictInsert fname
          (pdfBytesOf (a.client_name ++ S " - " ++ modeLabel mode) body) session⟩

/-- **C10**: a submission with a blank or whitespace-only client name is
rejected by the guard: the warning fires, no generation call (hence no
remote call) is made, no document is packaged, and the session mapping
is returned unchanged. -/
theorem C10_blank_client_guard (a : IntakeAnswers) (mode : Mode) (reply : Chars)
    (session : List (Chars × Bytes))
    (h : (pyStrip a.client_name).isEmpty = true) :
    handleSubmit a mode reply session = ⟨true, 0, false, session⟩
    ∧ (handleSubmit a mode reply session).genCalls = 0
    ∧ (handleSubmit a mode reply session).pdfMade = false
    ∧ (handleSubmit a mode reply session).session = session := by
  have he : handleSubmit a mode reply session = ⟨true, 0, false, session⟩ := by
    unfold handleSubmit
    rw [if_pos h]
  exact ⟨he, by rw [he], by rw [he], by rw [he]⟩

theorem C10_blank_client_guard_witness :
    ((pyStrip (S "   ")).isEmpty = true)
    ∧ handleSubmit { blankAnswers with client_name := S "   " } Mode.palette
        (S "reply text") [(S "a.pdf", [1, 2])]
        = ⟨true, 0, false, [(S "a.pdf", [1, 2])]⟩ :=
  ⟨by decide,
    (C10_blank_client_guard { blankAnswers with client_name := S "   " } Mode.palette
      (S "reply text") [(S "a.pdf", [1, 2])] (by decide)).1⟩
